import Mathlib

/-!
# Verification of `create_bam_links.py`

A shallow embedding of the bam-link creation script.  Paths are modelled as
lists of path components (the script only ever builds paths with
`os.path.join` and splits them with `os.path.split`, and directory-entry
names contain no separator).  The destination filesystem is modelled as an
association list from paths to nodes, where a node is either a regular
file/directory (`real`, carrying its `st_mtime`) or a symbolic link
(`link`, carrying its target path).  `os.path.exists` follows symlink
chains; the kernel's `SYMLOOP_MAX`-style bound is modelled with a fixed
fuel of 40, so an unresolvable chain or loop behaves like `ELOOP`
(i.e. `exists` is false).

`sys.exit(1)` and an uncaught `OSError`/`FileExistsError` both abort the
process; they are modelled with `Except`, the error carrying the
filesystem state at the moment of the abort (no later mutation happens).
-/

/-- A filesystem path, as its list of components (root first). -/
abbrev FsPath := List String

/-- A directory entry: a regular file/directory with its `st_mtime`,
or a symbolic link with its target. -/
inductive Node where
  | real (mtime : Nat)
  | link (target : FsPath)
deriving DecidableEq, Repr

/-- The filesystem: an association list from paths to nodes. -/
abbrev FS := List (FsPath × Node)

/-- `lookupFS fs p` is the directory entry at `p` (an `lstat`, it does not
follow a link at `p` itself). -/
def lookupFS : FS → FsPath → Option Node
  | [], _ => none
  | (k, n) :: fs, p => if k = p then some n else lookupFS fs p

/-- `os.remove` / `os.unlink`: drop the entry at `p`. -/
def removeKey : FS → FsPath → FS
  | [], _ => []
  | (k, n) :: fs, p => if k = p then removeKey fs p else (k, n) :: removeKey fs p

/-- Fuel bound on symlink-chain resolution (the kernel stops after 40
link hops with `ELOOP`; `os.path.exists` then reports `False`). -/
def symloopMax : Nat := 40

/-- Follow symlinks starting at `p`, returning the final resolved path and
its `st_mtime` when a regular entry is reached within `fuel` hops. -/
def resolveFS (fs : FS) : Nat → FsPath → Option (FsPath × Nat)
  | 0, _ => none
  | fuel + 1, p =>
    match lookupFS fs p with
    | some (.real m) => some (p, m)
    | some (.link t) => resolveFS fs fuel t
    | none => none

/-- `os.path.exists`: follows symlinks; false for a missing entry, a
dangling link, or an unresolvable chain. -/
def pexists (fs : FS) (p : FsPath) : Bool := (resolveFS fs symloopMax p).isSome

/-- `os.path.islink`. -/
def islinkFS (fs : FS) (p : FsPath) : Bool :=
  match lookupFS fs p with
  | some (.link _) => true
  | _ => false

/-- `os.path.realpath` (non-strict): the fully resolved path, or the
input path itself when resolution fails. -/
def realpathFS (fs : FS) (p : FsPath) : FsPath :=
  ((resolveFS fs symloopMax p).map Prod.fst).getD p

/-- `os.stat(p).st_mtime`.  `os.stat` follows symlinks; a failing `stat`
(missing path) is modelled as mtime 0 — the script only stats paths it
has just observed to exist. -/
def statMtime (fs : FS) (p : FsPath) : Nat :=
  ((resolveFS fs symloopMax p).map Prod.snd).getD 0

/-- Source lines 263–267: `is_dead_link` —
`os.path.islink(fpath) and not os.path.exists(fpath)`. -/
def is_dead_link (fs : FS) (p : FsPath) : Bool :=
  islinkFS fs p && !pexists fs p

/-- `os.symlink(src, dst)`: fails with `FileExistsError` when an entry
(even a dangling link) is already present at `dst`. -/
inductive RunError where
  | notALink (dest : FsPath)    -- the guarded `sys.exit(1)` at line 204
  | fileExists (dest : FsPath)  -- an uncaught `FileExistsError` from `os.symlink`
deriving DecidableEq, Repr

def symlinkFS (fs : FS) (src dst : FsPath) : Except RunError FS :=
  match lookupFS fs dst with
  | some _ => .error (.fileExists dst)
  | none => .ok ((dst, .link src) :: fs)

/-- `os.makedirs(basedir, exist_ok=True)`: create the directory entry when
absent, no-op otherwise.  (Intermediate parents are not tracked: no claim
depends on them; an existing non-directory at `basedir` is not modelled.) -/
def makedirs (fs : FS) (p : FsPath) : FS :=
  match lookupFS fs p with
  | some _ => fs
  | none => (p, .real 0) :: fs

/-- `os.path.split(p)[1]`: the final path component. -/
def baseNameP (p : FsPath) : String := (p.getLast?).getD ""

/-- Python `s.endswith(suff)` (on the character sequence). -/
def strEndsWith (s suff : String) : Bool := suff.toList.isSuffixOf s.toList

/-- Is `p` a direct child of `dir` (i.e. `p = dir ++ [name]`)? -/
def isChildB (dir p : FsPath) : Bool :=
  decide (p.take dir.length = dir ∧ p.length = dir.length + 1)

/-- Does the entry name (final component) of `p` end with `suff`?
`glob.glob(os.path.join(dir, '*bam'))` matches entries of `dir` whose
name ends in `bam`; a `*`-pattern without separator cannot match across
components. -/
def nameEndsWith (p : FsPath) (suff : String) : Bool :=
  strEndsWith ((p.getLast?).getD "") suff

/-- `glob.glob(os.path.join(dir, '*' ++ suff))`: the entries of `dir`
(in directory order, i.e. list order of `fs`) whose name ends in `suff`.
`glob` lists entries by name, so dangling links are included. -/
def globSuffix (fs : FS) (dir : FsPath) (suff : String) : List FsPath :=
  (fs.filter (fun e => isChildB dir e.1 && nameEndsWith e.1 suff)).map Prod.fst

/-- Source line 134–135: `glob(dir/*bam) + glob(dir/*bai)`. -/
def globBamBai (fs : FS) (dir : FsPath) : List FsPath :=
  globSuffix fs dir "bam" ++ globSuffix fs dir "bai"

/-! ## Sample-name derived strings (source lines 144–151)

Python string operations are modelled on `List Char`:
`str.split('-')`, `'-'.join`, `'Sample_' in s`, and
`s.replace('Sample_', '')` (which removes **every** non-overlapping
occurrence of the substring, scanning left to right). -/

def sampleTag : List Char := "Sample_".toList

/-- Python `s.split('-')` (split on every occurrence, keeping empties). -/
def pySplitDash : List Char → List (List Char)
  | [] => [[]]
  | x :: xs =>
    match pySplitDash xs with
    | [] => [[]]
    | h :: t => if x = '-' then [] :: h :: t else (x :: h) :: t

/-- Python `'-'.join(parts)`. -/
def joinDash : List (List Char) → List Char
  | [] => []
  | [x] => x
  | x :: xs => x ++ '-' :: joinDash xs

/-- Python `'Sample_' in s`: does the 7-character substring occur? -/
def containsTag : List Char → Bool
  | [] => false
  | 'S' :: 'a' :: 'm' :: 'p' :: 'l' :: 'e' :: '_' :: _ => true
  | _ :: xs => containsTag xs

/-- Python `s.replace('Sample_', '')`: remove every non-overlapping
occurrence of `Sample_`, scanning from the left. -/
def removeTag : List Char → List Char
  | [] => []
  | 'S' :: 'a' :: 'm' :: 'p' :: 'l' :: 'e' :: '_' :: rest => removeTag rest
  | x :: xs => x :: removeTag xs

/-- Source lines 144–149: `patient_id = '-'.join(sample.split('-')[0:2])`,
then `if 'Sample_' in patient_id: patient_id = patient_id.replace('Sample_', '')`. -/
def patientIdOf (sample : String) : String :=
  let pid := joinDash ((pySplitDash sample.toList).take 2)
  let pid := if containsTag pid then removeTag pid else pid
  ⟨pid⟩

/-- Source line 151: `sample_dir = sample.replace('Sample_', '')`. -/
def sampleDirOf (sample : String) : String := ⟨removeTag sample.toList⟩

/-! ## The Link Materializer (`create_links`, source lines 125–260) -/

/-- The command-line options consumed by `create_links`.  `outdir` is
taken already absolute (`os.path.abspath` is the identity on it). -/
structure Config where
  dryrun : Bool
  overwrite : Bool
  replace_old : Bool
  latest : Bool
  outdir : FsPath
  version : String

/-- The per-project counters `{'samples': _, 'files': _}`, modelled as a
total function (the Python dict is keyed by the projects passed to
`create_links`; entries outside that set are never read). -/
abbrev Counts := String → Nat × Nat

def bumpSamples (pj : String) (c : Counts) : Counts :=
  fun p => if p = pj then ((c p).1 + 1, (c p).2) else c p

def bumpFiles (pj : String) (c : Counts) : Counts :=
  fun p => if p = pj then ((c p).1, (c p).2 + 1) else c p

/-- A resolved sample fed to the Materializer: the dict key and the
`[project, directory]` part of its value (mtime is unused here). -/
structure SampleInfo where
  name : String
  project : String
  dir : FsPath

/-- The `for`-loop with abort: `sys.exit(1)` / an uncaught exception stops
the run, the error carrying the filesystem state at that moment. -/
def foldE (f : σ → α → Except ε σ) : σ → List α → Except ε σ
  | b, [] => .ok b
  | b, a :: as =>
    match f b a with
    | .ok b' => foldE f b' as
    | .error e => .error e

abbrev MState := FS × Counts
abbrev MResult := Except (RunError × FS) MState

/-- The body of the inner file loop (source lines 165–233), for one
`fpath`.  `dest = os.path.join(basedir, os.path.split(fpath)[1])`. -/
def link_one_file (cfg : Config) (project : String) (basedir : FsPath)
    (st : MState) (fpath : FsPath) : MResult :=
  let fs := st.1
  let cnt := st.2
  let dest := basedir ++ [baseNameP fpath]
  if pexists fs dest then
    -- lines 170–181: decide whether a newer source replaces the old target
    let replaceOld :=
      if cfg.replace_old then
        statMtime fs (realpathFS fs dest) < statMtime fs fpath
      else false
    if !cfg.overwrite && !replaceOld then
      -- lines 184–189: skip
      .ok (fs, cnt)
    else
      -- line 191: counted in dry runs as well
      let cnt := bumpFiles project cnt
      if !cfg.dryrun then
        if !islinkFS fs dest then
          -- lines 198–204: safety guard, `sys.exit(1)`
          .error (.notALink dest, fs)
        else
          -- lines 206–207: `os.remove(dest); os.symlink(fpath, dest)`
          match symlinkFS (removeKey fs dest) fpath dest with
          | .ok fs' => .ok (fs', cnt)
          | .error e => .error (e, removeKey fs dest)
      else .ok (fs, cnt)
  else
    -- lines 208–233: create a new symlink
    let fs1 := if is_dead_link fs dest && !cfg.dryrun then removeKey fs dest else fs
    if !cfg.dryrun then
      -- lines 229–233: count and link, both guarded by `not args.dryrun`
      match symlinkFS fs1 fpath dest with
      | .ok fs' => .ok (fs', bumpFiles project cnt)
      | .error e => .error (e, fs1)
    else .ok (fs1, cnt)

/-- The `latest` alias maintenance (source lines 237–258), reached only
when `args.latest` and not a dry run. -/
def latestStep (fs : FS) (basedir basedir_latest : FsPath) : Except (RunError × FS) FS :=
  let fs1 :=
    if pexists fs basedir_latest && islinkFS fs basedir_latest then
      removeKey fs basedir_latest
    else fs
  match symlinkFS fs1 basedir basedir_latest with
  | .ok fs2 => .ok fs2
  | .error e => .error (e, fs1)

/-- The body of the outer sample loop (source lines 129–258). -/
def link_one_sample (cfg : Config) (st : MState) (s : SampleInfo) : MResult :=
  let files := globBamBai st.1 s.dir
  if files.length = 0 then
    -- lines 137–140: warn and skip the sample
    .ok st
  else
    let patient_id := patientIdOf s.name
    let sample_dir := sampleDirOf s.name
    let basedir := cfg.outdir ++ [patient_id, sample_dir, cfg.version]
    -- lines 158–159: `os.makedirs` unless dry run
    let fs := if !cfg.dryrun then makedirs st.1 basedir else st.1
    -- line 163: one sample counted
    let cnt := bumpSamples s.project st.2
    match foldE (link_one_file cfg s.project basedir) (fs, cnt) files with
    | .error e => .error e
    | .ok (fs', cnt') =>
      if cfg.latest then
        let basedir_latest := cfg.outdir ++ [patient_id, sample_dir, "latest"]
        if !cfg.dryrun then
          match latestStep fs' basedir basedir_latest with
          | .ok fs'' => .ok (fs'', cnt')
          | .error e => .error e
        else .ok (fs', cnt')
      else .ok (fs', cnt')

/-- `create_links(args, projects, final_sample_dirs)`: the counters start
at zero for every project and the sample loop runs with abort-on-fatal. -/
def create_links (cfg : Config) (_projects : List String)
    (samples : List SampleInfo) (fs : FS) : MResult :=
  foldE (link_one_sample cfg) (fs, fun _ => (0, 0)) samples

/-- Result projections used to state closed facts about runs. -/
def runCountsAt (r : MResult) (pj : String) : Option (Nat × Nat) :=
  match r with
  | .ok (_, c) => some (c pj)
  | .error _ => none

def runFS (r : MResult) : Option FS :=
  match r with
  | .ok (fs, _) => some fs
  | .error _ => none

def runErr (r : MResult) : Option (RunError × FS) :=
  match r with
  | .ok _ => none
  | .error e => some e

/-! ## Basic filesystem lemmas -/

theorem lookupFS_removeKey_self (fs : FS) (p : FsPath) :
    lookupFS (removeKey fs p) p = none := by
  induction fs with
  | nil => rfl
  | cons e fs ih =>
    obtain ⟨k, n⟩ := e
    by_cases h : k = p
    · simp [removeKey, h, ih]
    · simp [removeKey, lookupFS, h, ih]

theorem lookupFS_removeKey_ne (fs : FS) (p q : FsPath) (h : q ≠ p) :
    lookupFS (removeKey fs p) q = lookupFS fs q := by
  induction fs with
  | nil => rfl
  | cons e fs ih =>
    obtain ⟨k, n⟩ := e
    by_cases hk : k = p
    · have hkq : ¬k = q := fun hkq => h (hkq ▸ hk)
      simp only [removeKey, if_pos hk, lookupFS, if_neg hkq, ih]
    · simp only [removeKey, if_neg hk, lookupFS, ih]

theorem resolveFS_real (fs : FS) (p : FsPath) (m : Nat)
    (h : lookupFS fs p = some (.real m)) :
    resolveFS fs symloopMax p = some (p, m) := by
  show resolveFS fs (39 + 1) p = some (p, m)
  simp [resolveFS, h]

theorem pexists_of_real (fs : FS) (p : FsPath) (m : Nat)
    (h : lookupFS fs p = some (.real m)) : pexists fs p = true := by
  simp [pexists, resolveFS_real fs p m h]

theorem realpathFS_of_real (fs : FS) (p : FsPath) (m : Nat)
    (h : lookupFS fs p = some (.real m)) : realpathFS fs p = p := by
  simp [realpathFS, resolveFS_real fs p m h]

theorem statMtime_of_real (fs : FS) (p : FsPath) (m : Nat)
    (h : lookupFS fs p = some (.real m)) : statMtime fs p = m := by
  simp [statMtime, resolveFS_real fs p m h]

theorem islinkFS_of_real (fs : FS) (p : FsPath) (m : Nat)
    (h : lookupFS fs p = some (.real m)) : islinkFS fs p = false := by
  simp [islinkFS, h]

/-- The loop aborts at the first error: nothing after it runs. -/
theorem foldE_error_head (f : σ → α → Except ε σ) (b : σ) (a : α) (l : List α)
    (e : ε) (h : f b a = .error e) : foldE f b (a :: l) = .error e := by
  simp [foldE, h]

/-- An error propagates unchanged through the rest of the loop. -/
theorem foldE_append_error (f : σ → α → Except ε σ) (l₁ l₂ : List α) (b : σ)
    (e : ε) (h : foldE f b l₁ = .error e) :
    foldE f b (l₁ ++ l₂) = .error e := by
  induction l₁ generalizing b with
  | nil => simp [foldE] at h
  | cons a l ih =>
    rw [List.cons_append, foldE]
    rw [foldE] at h
    cases hfa : f b a with
    | ok b' => rw [hfa] at h; exact ih b' h
    | error e' => rw [hfa] at h; exact h

/-! ## C9: dangling destination links are routine maintenance -/

/-- C9: for a destination that is a dangling symbolic link, a real run —
under every combination of the `overwrite` and `replace_old` policies,
which are not consulted on this branch — removes the dangling link, then
creates a new link to the source file, and counts the file as updated
(no error is raised). -/
theorem c9_dead_link_cleanup (cfg : Config) (project : String)
    (basedir : FsPath) (fs : FS) (cnt : Counts) (fpath : FsPath)
    (hdry : cfg.dryrun = false)
    (hdead : is_dead_link fs (basedir ++ [baseNameP fpath]) = true) :
    link_one_file cfg project basedir (fs, cnt) fpath =
      .ok ((basedir ++ [baseNameP fpath], .link fpath) ::
             removeKey fs (basedir ++ [baseNameP fpath]),
           bumpFiles project cnt) ∧
    lookupFS ((basedir ++ [baseNameP fpath], .link fpath) ::
        removeKey fs (basedir ++ [baseNameP fpath]))
      (basedir ++ [baseNameP fpath]) = some (.link fpath) ∧
    (bumpFiles project cnt project).2 = (cnt project).2 + 1 := by
  have hpe : pexists fs (basedir ++ [baseNameP fpath]) = false := by
    have := hdead
    unfold is_dead_link at this
    rcases Bool.and_eq_true_iff.mp this with ⟨-, h2⟩
    simpa using h2
  refine ⟨?_, by simp [lookupFS], by simp [bumpFiles]⟩
  unfold link_one_file
  simp only [hpe, hdead, hdry, Bool.false_and, Bool.and_self, Bool.not_false,
    Bool.and_true, if_false, if_true, Bool.true_and]
  simp [symlinkFS, lookupFS_removeKey_self]

/-- Witness for C9 at a concrete dangling link. -/
theorem c9_witness :
    is_dead_link [((["out", "C-1", "C-1-N1-d", "V1", "a.bam"] : FsPath), Node.link ["gone"])]
      (["out", "C-1", "C-1-N1-d", "V1"] ++ [baseNameP ["src", "S1", "a.bam"]]) = true ∧
    runFS (link_one_file ⟨false, true, true, false, ["out"], "V1"⟩ "P1"
      (["out", "C-1", "C-1-N1-d", "V1"])
      ([((["out", "C-1", "C-1-N1-d", "V1", "a.bam"] : FsPath), Node.link ["gone"])],
        fun _ => (0, 0))
      (["src", "S1", "a.bam"])) =
      some [((["out", "C-1", "C-1-N1-d", "V1", "a.bam"] : FsPath),
             Node.link ["src", "S1", "a.bam"])] ∧
    runCountsAt (link_one_file ⟨false, true, true, false, ["out"], "V1"⟩ "P1"
      (["out", "C-1", "C-1-N1-d", "V1"])
      ([((["out", "C-1", "C-1-N1-d", "V1", "a.bam"] : FsPath), Node.link ["gone"])],
        fun _ => (0, 0))
      (["src", "S1", "a.bam"])) "P1" = some (0, 1) := by
  have h := c9_dead_link_cleanup ⟨false, true, true, false, ["out"], "V1"⟩ "P1"
    (["out", "C-1", "C-1-N1-d", "V1"])
    [((["out", "C-1", "C-1-N1-d", "V1", "a.bam"] : FsPath), Node.link ["gone"])]
    (fun _ => (0, 0)) (["src", "S1", "a.bam"]) rfl (by decide)
  refine ⟨by decide, ?_, ?_⟩
  · rw [h.1]; decide
  · rw [h.1]; rfl

/-! ## C4: the non-symlink safety guard aborts the run -/

/-- C4: in a real run, when the destination exists as a regular (non-link)
entry and the policy requests its removal (`overwrite`, or `replace_old`
with a strictly newer source), the file step terminates with the distinct
`notALink` failure and the filesystem exactly as it was; the loop lemmas
state that neither the remaining files nor the remaining samples are
processed after an aborting step. -/
theorem c4_nonlink_guard_aborts (cfg : Config) (project : String)
    (basedir dest : FsPath) (fs : FS) (cnt : Counts) (fpath : FsPath) (m : Nat)
    (hdest : dest = basedir ++ [baseNameP fpath])
    (hdry : cfg.dryrun = false)
    (hreal : lookupFS fs dest = some (.real m))
    (hpol : cfg.overwrite = true ∨ (cfg.replace_old = true ∧ m < statMtime fs fpath)) :
    link_one_file cfg project basedir (fs, cnt) fpath = .error (.notALink dest, fs) ∧
    (∀ rest : List FsPath,
      foldE (link_one_file cfg project basedir) (fs, cnt) (fpath :: rest) =
        .error (.notALink dest, fs)) ∧
    (∀ (st : MState) (s : SampleInfo) (ss : List SampleInfo) (e : RunError × FS),
      link_one_sample cfg st s = .error e →
      foldE (link_one_sample cfg) st (s :: ss) = .error e) := by
  have hpe := pexists_of_real fs dest m hreal
  have hrp := realpathFS_of_real fs dest m hreal
  have hst := statMtime_of_real fs dest m hreal
  have hil := islinkFS_of_real fs dest m hreal
  have key : link_one_file cfg project basedir (fs, cnt) fpath =
      .error (.notALink dest, fs) := by
    simp only [link_one_file, ← hdest, hpe, if_true, hrp, hst, hdry, hil]
    rcases hpol with hov | ⟨hro, hlt⟩
    · simp [hov]
    · simp [hro, hlt]
  refine ⟨key, fun rest => foldE_error_head _ _ _ _ _ key, ?_⟩
  intro st s ss e h
  exact foldE_error_head _ _ _ _ _ h

/-- Witness for C4 at a concrete regular file colliding with a link
destination, with `overwrite` requested. -/
theorem c4_witness :
    lookupFS [((["out", "C-1", "C-1-N1-d", "V1", "a.bam"] : FsPath), Node.real 1),
              ((["src", "S1", "a.bam"] : FsPath), Node.real 3)]
        ["out", "C-1", "C-1-N1-d", "V1", "a.bam"] = some (.real 1) ∧
    runErr (link_one_file ⟨false, true, false, false, ["out"], "V1"⟩ "P1"
      (["out", "C-1", "C-1-N1-d", "V1"])
      ([((["out", "C-1", "C-1-N1-d", "V1", "a.bam"] : FsPath), Node.real 1),
        ((["src", "S1", "a.bam"] : FsPath), Node.real 3)], fun _ => (0, 0))
      (["src", "S1", "a.bam"])) =
      some (.notALink ["out", "C-1", "C-1-N1-d", "V1", "a.bam"],
        [((["out", "C-1", "C-1-N1-d", "V1", "a.bam"] : FsPath), Node.real 1),
         ((["src", "S1", "a.bam"] : FsPath), Node.real 3)]) := by
  have h := c4_nonlink_guard_aborts ⟨false, true, false, false, ["out"], "V1"⟩ "P1"
    (["out", "C-1", "C-1-N1-d", "V1"]) (["out", "C-1", "C-1-N1-d", "V1", "a.bam"])
    [((["out", "C-1", "C-1-N1-d", "V1", "a.bam"] : FsPath), Node.real 1),
     ((["src", "S1", "a.bam"] : FsPath), Node.real 3)]
    (fun _ => (0, 0)) (["src", "S1", "a.bam"]) 1
    (by decide) rfl (by decide) (Or.inl rfl)
  exact ⟨by decide, by rw [h.1]; rfl⟩

/-! ## C10: a dry run never evaluates the fatal guard -/

/-- The input exhibiting C10: two samples whose destinations all exist
as regular (non-link) files under the output tree. -/
def c10FS : FS :=
  [(["src", "S1", "a.bam"], .real 3), (["src", "S1", "b.bai"], .real 3),
   (["src", "S2", "c.bam"], .real 3),
   (["out", "C-1", "C-1-N1-d", "V1", "a.bam"], .real 1),
   (["out", "C-1", "C-1-N1-d", "V1", "b.bai"], .real 1),
   (["out", "C-2", "C-2-N1-d", "V1", "c.bam"], .real 1)]

def c10Samples : List SampleInfo :=
  [⟨"C-1-N1-d", "P1", ["src", "S1"]⟩, ⟨"C-2-N1-d", "P1", ["src", "S2"]⟩]

/-- C10: with `overwrite` requested and every destination existing as a
regular file, a dry run does not abort — it counts all three files as
updated (`samples = 2, files = 3`, continuing past the first file and
through the second sample) and mutates nothing — while the corresponding
real run terminates with the fatal `notALink` error at the very first
file. -/
theorem c10_dryrun_skips_fatal_guard :
    runCountsAt (create_links ⟨true, true, false, false, ["out"], "V1"⟩ ["P1"]
      c10Samples c10FS) "P1" = some (2, 3) ∧
    runFS (create_links ⟨true, true, false, false, ["out"], "V1"⟩ ["P1"]
      c10Samples c10FS) = some c10FS ∧
    runErr (create_links ⟨false, true, false, false, ["out"], "V1"⟩ ["P1"]
      c10Samples c10FS) =
      some (.notALink ["out", "C-1", "C-1-N1-d", "V1", "a.bam"],
        (["out", "C-1", "C-1-N1-d", "V1"], .real 0) :: c10FS) := by
  decide

/-! ## C2: dry-run counts versus real-run counts -/

/-- C2 (code bug): for a single fresh destination, a dry run reports
`files = 0` while the real run from the same state reports `files = 1`:
the `files` increment for newly created links sits inside the
`if not args.dryrun` guard (lines 229–233), unlike the increment for
replaced links (line 191).  The dry run performs no filesystem mutation
(that part of the claim holds). -/
theorem c2_dryrun_count_divergence :
    runCountsAt (create_links ⟨true, false, false, false, ["out"], "V1"⟩ ["P1"]
      [⟨"C-1-N1-d", "P1", ["src", "S1"]⟩] [(["src", "S1", "a.bam"], .real 3)]) "P1" =
      some (1, 0) ∧
    runFS (create_links ⟨true, false, false, false, ["out"], "V1"⟩ ["P1"]
      [⟨"C-1-N1-d", "P1", ["src", "S1"]⟩] [(["src", "S1", "a.bam"], .real 3)]) =
      some [(["src", "S1", "a.bam"], .real 3)] ∧
    runCountsAt (create_links ⟨false, false, false, false, ["out"], "V1"⟩ ["P1"]
      [⟨"C-1-N1-d", "P1", ["src", "S1"]⟩] [(["src", "S1", "a.bam"], .real 3)]) "P1" =
      some (1, 1) := by
  decide

/-! ## C5: the `latest` alias lifecycle -/

theorem pexists_of_lookup_none (fs : FS) (p : FsPath)
    (h : lookupFS fs p = none) : pexists fs p = false := by
  have : resolveFS fs symloopMax p = none := by
    show resolveFS fs (39 + 1) p = none
    simp [resolveFS, h]
  simp [pexists, this]

theorem latestStep_ok_points (fs fs'' : FS) (basedir latestP : FsPath)
    (h : latestStep fs basedir latestP = .ok fs'') :
    lookupFS fs'' latestP = some (.link basedir) := by
  simp only [latestStep] at h
  split at h
  · rename_i fs2 heq
    cases h
    unfold symlinkFS at heq
    split at heq
    · cases heq
    · cases heq
      simp [lookupFS]
  · cases h

/-- C5 (amended): on a real run with the `latest` alias requested, the
alias setup behaves as follows.  If the `latest` path is absent, the
alias is created; if it is a symbolic link whose target exists, the old
alias is removed and the alias recreated; but if the path exists as a
regular (non-link) entry, or as a dangling symbolic link, the run aborts
with `FileExistsError` at the alias creation and the existing entry —
in particular a real directory named `latest` — is never removed.
Whenever a sample step of such a run succeeds, the alias does point at
the sample's versioned directory. -/
theorem c5_latest_alias_lifecycle (fs : FS) (basedir latestP : FsPath) :
    (lookupFS fs latestP = none →
      latestStep fs basedir latestP = .ok ((latestP, .link basedir) :: fs)) ∧
    (∀ t, lookupFS fs latestP = some (.link t) → pexists fs latestP = true →
      latestStep fs basedir latestP =
        .ok ((latestP, .link basedir) :: removeKey fs latestP)) ∧
    (∀ m, lookupFS fs latestP = some (.real m) →
      latestStep fs basedir latestP = .error (.fileExists latestP, fs)) ∧
    (∀ t, lookupFS fs latestP = some (.link t) → pexists fs latestP = false →
      latestStep fs basedir latestP = .error (.fileExists latestP, fs)) ∧
    (∀ (cfg : Config) (st : MState) (s : SampleInfo) (fs' : FS) (cnt' : Counts),
      cfg.latest = true → cfg.dryrun = false →
      link_one_sample cfg st s = .ok (fs', cnt') →
      globBamBai st.1 s.dir = [] ∨
        lookupFS fs' (cfg.outdir ++ [patientIdOf s.name, sampleDirOf s.name, "latest"]) =
          some (.link (cfg.outdir ++ [patientIdOf s.name, sampleDirOf s.name, cfg.version]))) := by
  refine ⟨?_, ?_, ?_, ?_, ?_⟩
  · intro h
    have hpe := pexists_of_lookup_none fs latestP h
    simp [latestStep, hpe, symlinkFS, h]
  · intro t h hpe
    have hil : islinkFS fs latestP = true := by simp [islinkFS, h]
    simp [latestStep, hpe, hil, symlinkFS, lookupFS_removeKey_self]
  · intro m h
    have hil : islinkFS fs latestP = false := by simp [islinkFS, h]
    simp [latestStep, hil, symlinkFS, h]
  · intro t h hpe
    simp [latestStep, hpe, symlinkFS, h]
  · intro cfg st s fs' cnt' hlat hdry hok
    simp only [link_one_sample] at hok
    by_cases hfiles : (globBamBai st.1 s.dir).length = 0
    · exact Or.inl (List.eq_nil_of_length_eq_zero hfiles)
    · right
      rw [if_neg hfiles, hlat, hdry] at hok
      simp only [Bool.not_false, if_true] at hok
      split at hok

      · cases hok
      · split at hok
        · rename_i fs2 hls
          cases hok
          exact latestStep_ok_points _ _ _ _ hls
        · cases hok

/-- Witness for C5's amended behavior: on an empty filesystem the alias
is freshly created. -/
theorem c5_witness :
    lookupFS ([] : FS) ["out", "C-1", "C-1-N1-d", "latest"] = none ∧
    latestStep [] ["out", "C-1", "C-1-N1-d", "V1"] ["out", "C-1", "C-1-N1-d", "latest"] =
      .ok [(["out", "C-1", "C-1-N1-d", "latest"], .link ["out", "C-1", "C-1-N1-d", "V1"])] :=
  ⟨rfl, (c5_latest_alias_lifecycle [] ["out", "C-1", "C-1-N1-d", "V1"]
    ["out", "C-1", "C-1-N1-d", "latest"]).1 rfl⟩

/-- Counterexample to C5 as stated: with `latest` requested on a real
run, a pre-existing regular directory at the `latest` path (first run)
or a dangling link there (second run) makes the run abort with an
uncaught `FileExistsError` — the alias is *not* recreated (the claim
says it is recreated on every such run); the real directory is
preserved in the abort state. -/
theorem c5_counterexample :
    runErr (create_links ⟨false, false, false, true, ["out"], "V1"⟩ ["P1"]
      [⟨"C-1-N1-d", "P1", ["src", "S1"]⟩]
      [(["src", "S1", "a.bam"], .real 3), (["out", "C-1", "C-1-N1-d", "latest"], .real 7)]) =
      some (.fileExists ["out", "C-1", "C-1-N1-d", "latest"],
        [(["out", "C-1", "C-1-N1-d", "V1", "a.bam"], .link ["src", "S1", "a.bam"]),
         (["out", "C-1", "C-1-N1-d", "V1"], .real 0),
         (["src", "S1", "a.bam"], .real 3),
         (["out", "C-1", "C-1-N1-d", "latest"], .real 7)]) ∧
    runErr (create_links ⟨false, false, false, true, ["out"], "V1"⟩ ["P1"]
      [⟨"C-1-N1-d", "P1", ["src", "S1"]⟩]
      [(["src", "S1", "a.bam"], .real 3),
       (["out", "C-1", "C-1-N1-d", "latest"], .link ["nowhere"])]) =
      some (.fileExists ["out", "C-1", "C-1-N1-d", "latest"],
        [(["out", "C-1", "C-1-N1-d", "V1", "a.bam"], .link ["src", "S1", "a.bam"]),
         (["out", "C-1", "C-1-N1-d", "V1"], .real 0),
         (["src", "S1", "a.bam"], .real 3),
         (["out", "C-1", "C-1-N1-d", "latest"], .link ["nowhere"])]) := by
  decide

/-! ## C8: `patient_id` and `sample_dir` derivation -/

/-- If `Sample_` does not occur in `l`, `replace` returns `l` unchanged. -/
theorem removeTag_of_not_contains (l : List Char) (h : containsTag l = false) :
    removeTag l = l := by
  induction l using removeTag.induct with
  | case1 => rfl
  | case2 rest ih => simp [containsTag] at h
  | case3 x xs h1 ih =>
    have hxs : containsTag xs = false := by
      rw [containsTag.eq_def] at h
      split at h
      · rename_i heq; exact absurd heq (by simp)
      · exact absurd h (by simp)
      · rename_i hd tl hno heq
        injection heq with e1 e2
        subst e1; subst e2
        exact h
    rw [removeTag.eq_def]
    split
    · rename_i heq; exact absurd heq (by simp)
    · rename_i rest heq
      injection heq with e1 e2
      exact (h1 rest e1 e2).elim
    · rename_i hd tl hno heq
      injection heq with e1 e2
      subst e1; subst e2
      rw [ih hxs]

/-- The spec's reading of the derivation: strip one *leading* `Sample_`
prefix.  (`spec_patient_id`/`spec_sample_dir` follow the spec's words and
exist only for comparison with the code's `patientIdOf`/`sampleDirOf`.) -/
def stripTagPrefix (l : List Char) : List Char :=
  if sampleTag.isPrefixOf l then l.drop sampleTag.length else l

def spec_patient_id (s : String) : String :=
  ⟨joinDash ((pySplitDash (stripTagPrefix s.toList)).take 2)⟩

def spec_sample_dir (s : String) : String := ⟨stripTagPrefix s.toList⟩

/-- Counterexample to C8 as stated: for the resolvable sample name
`A-Sample_B`, the code removes the mid-string occurrence of `Sample_`
(`patient_id = sample_dir = "A-B"`), while per the claim only a leading
`Sample_` prefix would be stripped (giving `"A-Sample_B"`). -/
theorem c8_counterexample :
    patientIdOf "A-Sample_B" ≠ spec_patient_id "A-Sample_B" ∧
    sampleDirOf "A-Sample_B" ≠ spec_sample_dir "A-Sample_B" ∧
    patientIdOf "A-Sample_B" = "A-B" ∧
    spec_patient_id "A-Sample_B" = "A-Sample_B" ∧
    sampleDirOf "A-Sample_B" = "A-B" ∧
    spec_sample_dir "A-Sample_B" = "A-Sample_B" := by
  refine ⟨by decide, by decide, by decide, by decide, by decide, by decide⟩

/-- C8 (amended): `patient_id` equals the first two hyphen-delimited
tokens of the sample name with **every** occurrence of the substring
`Sample_` removed (not only a leading prefix) — the conditional
`if 'Sample_' in patient_id` is redundant — and `sample_dir` equals the
sample name with every occurrence of `Sample_` removed, independent of
whether the `patient_id` removal occurred. -/
theorem c8_patient_id_sample_dir (s : String) :
    patientIdOf s = ⟨removeTag (joinDash ((pySplitDash s.toList).take 2))⟩ ∧
    sampleDirOf s = ⟨removeTag s.toList⟩ := by
  refine ⟨?_, rfl⟩
  unfold patientIdOf
  by_cases h : containsTag (joinDash ((pySplitDash s.toList).take 2)) = true
  · simp only [h, if_true]
  · have h' : containsTag (joinDash ((pySplitDash s.toList).take 2)) = false := by
      simpa using h
    simp only [h', if_false, Bool.false_eq_true]
    rw [removeTag_of_not_contains _ h']

/-! ## The Sample Resolver (source lines 15–113)

The directory tree under a project's `bam_qc` root is modelled as a rose
tree of directories (plain files are irrelevant: `list_dir` keeps only
directories).  The configurable sample regular expression is modelled as
an abstract `matcher : FsPath → Bool`, applied — like `re.search` — to
the full path of a candidate.  `endswith` tests on a full joined path,
for suffixes containing no separator (all of `FOLDERS_EXCLUDE`, and
`current`), are equivalent to the same test on the final component. -/

def FOLDERS_EXCLUDE : List String :=
  ["QC_Results", "log", "picard_metrics", "Joint_QC", "tmp",
   "bams", "duplex", "simplex", "_results"]

inductive DirTree where
  | node (name : String) (mtime : Nat) (children : List DirTree)

instance : Inhabited DirTree := ⟨.node "" 0 []⟩

def DirTree.name : DirTree → String
  | .node n _ _ => n

def DirTree.mtime : DirTree → Nat
  | .node _ m _ => m

def DirTree.children : DirTree → List DirTree
  | .node _ _ c => c

/-- A directory candidate: its full path and its subtree. -/
abbrev Cand := FsPath × DirTree

/-- Source lines 40–48: drop candidates whose path ends with an entry of
`FOLDERS_EXCLUDE`. -/
def filter_dirs (dirs : List Cand) : List Cand :=
  dirs.filter (fun c => !(FOLDERS_EXCLUDE.any (fun i => nameEndsWith c.1 i)))

/-- Source lines 51–61: list a directory, keep directories, filter. -/
def list_dir (path : FsPath) (t : DirTree) : List Cand :=
  filter_dirs (t.children.map (fun c => (path ++ [c.name], c)))

/-- Source lines 64–66: keep candidates whose full path matches the
sample pattern. -/
def list_sample_dirs (dirs : List Cand) (matcher : FsPath → Bool) : List Cand :=
  dirs.filter (fun c => matcher c.1)

/-- The resolved map: `sample_name ↦ [project, directory, dir_age]`,
insertion-ordered with unique keys (a Python dict). -/
abbrev SMap := List (String × String × FsPath × Nat)

def lookupSM : SMap → String → Option (String × FsPath × Nat)
  | [], _ => none
  | (k, v) :: m, name => if k = name then some v else lookupSM m name

/-- Assignment to an existing dict key (keeps insertion position). -/
def updateSM : SMap → String → (String × FsPath × Nat) → SMap
  | [], _, _ => []
  | (k, w) :: m, name, v =>
    if k = name then (name, v) :: updateSM m name v else (k, w) :: updateSM m name v

/-- The body of the loop in `add_sample_dirs_to_dict` (source lines 27–35). -/
def mergeStep (project : String) (m : SMap) (c : Cand) : SMap :=
  let sample_name := baseNameP c.1
  let dir_age := c.2.mtime
  match lookupSM m sample_name with
  | some v =>
    if v.2.2 < dir_age then updateSM m sample_name (project, c.1, dir_age) else m
  | none => m ++ [(sample_name, project, c.1, dir_age)]

/-- Source lines 20–37. -/
def add_sample_dirs_to_dict (sample_dirs : SMap) (dirs : List Cand)
    (project : String) : SMap :=
  dirs.foldl (mergeStep project) sample_dirs

/-- Source line 81: `list_dir(os.path.join(path, 'current'))` — the
listing of the `current` child, empty when no such directory exists. -/
def currentListing (path : FsPath) (t : DirTree) : List Cand :=
  match t.children.find? (fun c => decide (c.name = "current")) with
  | some ct => list_dir (path ++ ["current"]) ct
  | none => []

/-- Source lines 94–95 / 106–107: list each candidate's subdirectories
and flatten. -/
def childCands (cands : List Cand) : List Cand :=
  (cands.map (fun c => list_dir c.1 c.2)).flatten

/-- Source lines 69–113: the three-level search. -/
def get_sample_dirs (final_sample_dirs : SMap) (path : FsPath) (t : DirTree)
    (matcher : FsPath → Bool) (project : String) : SMap :=
  let dirs := list_dir path t
  let dirs :=
    if dirs.any (fun c => nameEndsWith c.1 "current") then currentListing path t
    else dirs
  let m0 := add_sample_dirs_to_dict final_sample_dirs (list_sample_dirs dirs matcher) project
  if dirs.isEmpty then m0
  else
    let dirs1 := childCands (dirs.filter (fun c => !matcher c.1))
    let m1 := add_sample_dirs_to_dict m0 (list_sample_dirs dirs1 matcher) project
    if dirs1.isEmpty then m1
    else
      let dirs2 := childCands (dirs1.filter (fun c => !matcher c.1))
      add_sample_dirs_to_dict m1 (list_sample_dirs dirs2 matcher) project

/-- The candidate set inspected at each search level (level 0 after the
`current` substitution). -/
def level0 (path : FsPath) (t : DirTree) : List Cand :=
  let dirs := list_dir path t
  if dirs.any (fun c => nameEndsWith c.1 "current") then currentListing path t
  else dirs

def level1 (path : FsPath) (t : DirTree) (matcher : FsPath → Bool) : List Cand :=
  childCands ((level0 path t).filter (fun c => !matcher c.1))

def level2 (path : FsPath) (t : DirTree) (matcher : FsPath → Bool) : List Cand :=
  childCands ((level1 path t matcher).filter (fun c => !matcher c.1))

/-- `main` (source lines 287–292): fold the Resolver over all projects,
each contributing a search root (`runsdir/project/bam_qc`) and its tree,
starting from the empty map. -/
def resolveAll (prjs : List (String × FsPath × DirTree))
    (matcher : FsPath → Bool) : SMap :=
  prjs.foldl (fun m pr => get_sample_dirs m pr.2.1 pr.2.2 matcher pr.1) []

/-- All sample-pattern-matching candidates a project's search inspects,
in merge order. -/
def matchedCands (path : FsPath) (t : DirTree) (matcher : FsPath → Bool) : List Cand :=
  list_sample_dirs (level0 path t) matcher ++
  list_sample_dirs (level1 path t matcher) matcher ++
  list_sample_dirs (level2 path t matcher) matcher

/-- The `(sample_name, mtime)` pairs of all matching directories seen
across all projects and levels. -/
def allSeen (prjs : List (String × FsPath × DirTree))
    (matcher : FsPath → Bool) : List (String × Nat) :=
  (prjs.map (fun pr =>
    (matchedCands pr.2.1 pr.2.2 matcher).map (fun c => (baseNameP c.1, c.2.mtime)))).flatten

/-- The mtimes seen for one sample name. -/
def mtimesFor (l : List (String × Nat)) (name : String) : List Nat :=
  (l.filter (fun e => decide (e.1 = name))).map Prod.snd

/-- The guards in `get_sample_dirs` are redundant: empty candidate sets
contribute nothing, so the search is the merge of exactly the three
levels. -/
theorem get_sample_dirs_levels (m : SMap) (path : FsPath) (t : DirTree)
    (matcher : FsPath → Bool) (project : String) :
    get_sample_dirs m path t matcher project =
      add_sample_dirs_to_dict
        (add_sample_dirs_to_dict
          (add_sample_dirs_to_dict m (list_sample_dirs (level0 path t) matcher) project)
          (list_sample_dirs (level1 path t matcher) matcher) project)
        (list_sample_dirs (level2 path t matcher) matcher) project := by
  unfold get_sample_dirs level2 level1 level0
  by_cases h0 : (if (list_dir path t).any (fun c => nameEndsWith c.1 "current") then
      currentListing path t else list_dir path t).isEmpty
  · rw [List.isEmpty_iff] at h0
    simp only [h0, List.isEmpty_nil, if_true, List.filter_nil]
    show _ = add_sample_dirs_to_dict (add_sample_dirs_to_dict _
      (list_sample_dirs (childCands []) matcher) project) _ project
    simp [childCands, list_sample_dirs, add_sample_dirs_to_dict]
  · rw [if_neg (by simpa using h0)]
    by_cases h1 : (childCands ((if (list_dir path t).any (fun c => nameEndsWith c.1 "current")
        then currentListing path t else list_dir path t).filter
          (fun c => !matcher c.1))).isEmpty
    · rw [List.isEmpty_iff] at h1
      simp only [h1, List.isEmpty_nil, if_true, List.filter_nil]
      show _ = add_sample_dirs_to_dict _ (list_sample_dirs (childCands []) matcher) project
      simp [childCands, list_sample_dirs, add_sample_dirs_to_dict]
    · rw [if_neg (by simpa using h1)]

/-! ## Dictionary lemmas for the merge rule -/

def smKeys (m : SMap) : List String := m.map Prod.fst

/-- Merging a tagged candidate list (project attached per candidate),
generalizing `add_sample_dirs_to_dict` across projects. -/
def mergeAll (m : SMap) (l : List (String × Cand)) : SMap :=
  l.foldl (fun m pc => mergeStep pc.1 m pc.2) m

theorem add_eq_mergeAll (m : SMap) (dirs : List Cand) (project : String) :
    add_sample_dirs_to_dict m dirs project =
      mergeAll m (dirs.map (fun c => (project, c))) := by
  unfold add_sample_dirs_to_dict mergeAll
  rw [List.foldl_map]

theorem mergeAll_append (m : SMap) (l₁ l₂ : List (String × Cand)) :
    mergeAll m (l₁ ++ l₂) = mergeAll (mergeAll m l₁) l₂ := by
  unfold mergeAll
  rw [List.foldl_append]

theorem lookupSM_append (m₁ m₂ : SMap) (name : String) :
    lookupSM (m₁ ++ m₂) name =
      match lookupSM m₁ name with
      | some v => some v
      | none => lookupSM m₂ name := by
  induction m₁ with
  | nil => rfl
  | cons e m₁ ih =>
    obtain ⟨k, v⟩ := e
    by_cases h : k = name
    · simp [lookupSM, h]
    · simp [lookupSM, h, ih]

theorem lookupSM_none_iff (m : SMap) (name : String) :
    lookupSM m name = none ↔ name ∉ smKeys m := by
  induction m with
  | nil => simp [lookupSM, smKeys]
  | cons e m ih =>
    obtain ⟨k, v⟩ := e
    rw [lookupSM]
    by_cases h : k = name
    · subst h
      simp [smKeys]
    · rw [if_neg h, ih]
      simp only [smKeys, List.map_cons, List.mem_cons]
      constructor
      · intro hn hmem
        rcases hmem with hk | hm
        · exact h hk.symm
        · exact hn hm
      · intro hn hm
        exact hn (Or.inr hm)

theorem smKeys_updateSM (m : SMap) (name : String) (v : String × FsPath × Nat) :
    smKeys (updateSM m name v) = smKeys m := by
  induction m with
  | nil => rfl
  | cons e m ih =>
    obtain ⟨k, w⟩ := e
    by_cases h : k = name
    · rw [updateSM, if_pos h]
      show name :: smKeys (updateSM m name v) = k :: smKeys m
      rw [ih, h]
    · rw [updateSM, if_neg h]
      show k :: smKeys (updateSM m name v) = k :: smKeys m
      rw [ih]

theorem lookupSM_updateSM_self (m : SMap) (name : String)
    (v₀ v : String × FsPath × Nat) (h : lookupSM m name = some v₀) :
    lookupSM (updateSM m name v) name = some v := by
  induction m with
  | nil => cases h
  | cons e m ih =>
    obtain ⟨k, w⟩ := e
    by_cases hk : k = name
    · rw [updateSM, if_pos hk, lookupSM, if_pos rfl]
    · rw [lookupSM, if_neg hk] at h
      rw [updateSM, if_neg hk, lookupSM, if_neg hk]
      exact ih h

theorem lookupSM_updateSM_ne (m : SMap) (name name' : String)
    (v : String × FsPath × Nat) (h : name' ≠ name) :
    lookupSM (updateSM m name v) name' = lookupSM m name' := by
  induction m with
  | nil => rfl
  | cons e m ih =>
    obtain ⟨k, w⟩ := e
    have hname : ¬name = name' := fun hh => h hh.symm
    by_cases hk : k = name
    · have hk' : ¬k = name' := by rw [hk]; exact hname
      rw [updateSM, if_pos hk, lookupSM, if_neg hname, lookupSM, if_neg hk', ih]
    · rw [updateSM, if_neg hk, lookupSM, lookupSM]
      by_cases hk' : k = name'
      · rw [if_pos hk', if_pos hk']
      · rw [if_neg hk', if_neg hk', ih]

/-- One merge step keeps the keys without duplicates. -/
theorem mergeStep_nodupKeys (project : String) (m : SMap) (c : Cand)
    (h : (smKeys m).Nodup) : (smKeys (mergeStep project m c)).Nodup := by
  simp only [mergeStep]
  split
  · split
    · rw [smKeys_updateSM]
      exact h
    · exact h
  · rename_i hl
    have hnm : baseNameP c.1 ∉ smKeys m := (lookupSM_none_iff m _).mp hl
    simp only [smKeys, List.map_append, List.map_cons, List.map_nil]
    rw [List.nodup_append]
    refine ⟨h, List.nodup_singleton _, ?_⟩
    intro a ha hb
    simp only [List.mem_singleton] at hb
    subst hb
    exact hnm ha

theorem mergeAll_nodupKeys (l : List (String × Cand)) (m : SMap)
    (h : (smKeys m).Nodup) : (smKeys (mergeAll m l)).Nodup := by
  induction l generalizing m with
  | nil => exact h
  | cons pc l ih =>
    exact ih (mergeStep pc.1 m pc.2) (mergeStep_nodupKeys pc.1 m pc.2 h)

/-! ## The max-merge characterization -/

/-- The running "strictly newer wins" maximum. -/
def optMax : Option Nat → Nat → Option Nat
  | none, a => some a
  | some b, a => some (max b a)

/-- The mtime recorded for `name` in the map, if any. -/
def mtimeAt (m : SMap) (name : String) : Option Nat :=
  (lookupSM m name).map (fun v => v.2.2)

/-- The `(sample_name, mtime)` pairs of a tagged candidate list. -/
def seenPairs (l : List (String × Cand)) : List (String × Nat) :=
  l.map (fun pc => (baseNameP pc.2.1, pc.2.2.mtime))

theorem foldl_optMax_isSome (l : List Nat) (b : Nat) :
    (l.foldl optMax (some b)).isSome = true := by
  induction l generalizing b with
  | nil => rfl
  | cons a l ih => simpa [List.foldl_cons, optMax] using ih (max b a)

theorem foldl_optMax_none_iff (l : List Nat) (o : Option Nat) :
    l.foldl optMax o = none ↔ o = none ∧ l = [] := by
  cases l with
  | nil => simp [List.foldl_nil]
  | cons a l =>
    simp only [List.foldl_cons]
    constructor
    · intro h
      exfalso
      cases o with
      | none =>
        have hs := foldl_optMax_isSome l a
        rw [show optMax none a = some a from rfl] at h
        rw [h] at hs
        cases hs
      | some b =>
        have hs := foldl_optMax_isSome l (max b a)
        rw [show optMax (some b) a = some (max b a) from rfl] at h
        rw [h] at hs
        cases hs
    · rintro ⟨-, h⟩
      cases h

theorem foldl_optMax_spec (l : List Nat) (o : Option Nat) (v : Nat)
    (h : l.foldl optMax o = some v) :
    (v ∈ l ∨ o = some v) ∧ (∀ a ∈ l, a ≤ v) ∧ (∀ b, o = some b → b ≤ v) := by
  induction l generalizing o with
  | nil =>
    refine ⟨Or.inr h, by simp, ?_⟩
    intro b hb
    rw [hb] at h
    cases h
    exact le_refl _
  | cons a l ih =>
    rw [List.foldl_cons] at h
    obtain ⟨hmem, hle, hinit⟩ := ih (optMax o a) h
    have hav : a ≤ v := by
      cases o with
      | none => exact hinit a rfl
      | some b => exact le_trans (le_max_right b a) (hinit (max b a) rfl)
    refine ⟨?_, ?_, ?_⟩
    · rcases hmem with hv | ho
      · exact Or.inl (List.mem_cons_of_mem a hv)
      · cases o with
        | none =>
          rw [show optMax none a = some a from rfl] at ho
          injection ho with ho
          exact Or.inl (by rw [← ho]; exact List.mem_cons_self a l)
        | some b =>
          rw [show optMax (some b) a = some (max b a) from rfl] at ho
          injection ho with ho
          rcases max_choice b a with hb | ha
          · exact Or.inr (by rw [← ho, hb])
          · exact Or.inl (by rw [← ho, ha]; exact List.mem_cons_self a l)
    · intro x hx
      rcases List.mem_cons.mp hx with hxa | hxl
      · exact hxa ▸ hav
      · exact hle x hxl
    · intro b hb
      cases o with
      | none => cases hb
      | some b' =>
        injection hb with hb
        exact hb ▸ le_trans (le_max_left b' a) (hinit (max b' a) rfl)

theorem mtimeAt_mergeStep_eq (project : String) (m : SMap) (c : Cand) :
    mtimeAt (mergeStep project m c) (baseNameP c.1) =
      optMax (mtimeAt m (baseNameP c.1)) c.2.mtime := by
  simp only [mergeStep, mtimeAt]
  split
  · rename_i v hl
    split
    · rename_i hlt
      rw [lookupSM_updateSM_self m _ v _ hl, hl]
      simp [optMax, Nat.max_eq_right (le_of_lt hlt)]
    · rename_i hlt
      rw [hl]
      simp [optMax, Nat.max_eq_left (Nat.le_of_not_lt hlt)]
  · rename_i hl
    rw [lookupSM_append, hl]
    simp [lookupSM, optMax]

theorem mtimeAt_mergeStep_ne (project : String) (m : SMap) (c : Cand)
    (name : String) (hn : baseNameP c.1 ≠ name) :
    mtimeAt (mergeStep project m c) name = mtimeAt m name := by
  simp only [mergeStep, mtimeAt]
  split
  · split
    · rw [lookupSM_updateSM_ne m _ name _ (fun hh => hn hh.symm)]
    · rfl
  · rw [lookupSM_append]
    cases hlk : lookupSM m name with
    | some v => rfl
    | none => simp [lookupSM, hn]

/-- The merge of a tagged candidate sequence records, per name, exactly
the running strictly-newer-wins maximum of the seen mtimes. -/
theorem mergeAll_mtimeAt (l : List (String × Cand)) (m : SMap) (name : String)
    (h : (smKeys m).Nodup) :
    mtimeAt (mergeAll m l) name =
      (mtimesFor (seenPairs l) name).foldl optMax (mtimeAt m name) := by
  induction l generalizing m with
  | nil => rfl
  | cons pc l ih =>
    obtain ⟨pj, c⟩ := pc
    have hstep : (smKeys (mergeStep pj m c)).Nodup := mergeStep_nodupKeys pj m c h
    rw [show mergeAll m ((pj, c) :: l) = mergeAll (mergeStep pj m c) l from rfl,
        ih (mergeStep pj m c) hstep]
    by_cases hn : baseNameP c.1 = name
    · have hseen : mtimesFor (seenPairs ((pj, c) :: l)) name =
          c.2.mtime :: mtimesFor (seenPairs l) name := by
        simp [seenPairs, mtimesFor, hn]
      rw [hseen, List.foldl_cons]
      rw [← hn, mtimeAt_mergeStep_eq]
    · have hseen : mtimesFor (seenPairs ((pj, c) :: l)) name =
          mtimesFor (seenPairs l) name := by
        simp [seenPairs, mtimesFor, hn]
      rw [hseen, mtimeAt_mergeStep_ne pj m c name hn]

theorem get_sample_dirs_mergeAll (m : SMap) (path : FsPath) (t : DirTree)
    (matcher : FsPath → Bool) (project : String) :
    get_sample_dirs m path t matcher project =
      mergeAll m ((matchedCands path t matcher).map (fun c => (project, c))) := by
  rw [get_sample_dirs_levels]
  unfold matchedCands
  rw [List.map_append, List.map_append, mergeAll_append, mergeAll_append,
      add_eq_mergeAll, add_eq_mergeAll, add_eq_mergeAll]

theorem resolveAll_mergeAll (prjs : List (String × FsPath × DirTree))
    (matcher : FsPath → Bool) :
    ∀ m, prjs.foldl (fun m pr => get_sample_dirs m pr.2.1 pr.2.2 matcher pr.1) m =
      mergeAll m ((prjs.map (fun pr =>
        (matchedCands pr.2.1 pr.2.2 matcher).map (fun c => (pr.1, c)))).flatten) := by
  induction prjs with
  | nil => intro m; rfl
  | cons pr prjs ih =>
    intro m
    rw [List.foldl_cons, List.map_cons, List.flatten_cons, mergeAll_append,
        ← get_sample_dirs_mergeAll]
    exact ih (get_sample_dirs m pr.2.1 pr.2.2 matcher pr.1)

theorem seenPairs_flatten (prjs : List (String × FsPath × DirTree))
    (matcher : FsPath → Bool) :
    seenPairs ((prjs.map (fun pr =>
        (matchedCands pr.2.1 pr.2.2 matcher).map (fun c => (pr.1, c)))).flatten) =
      allSeen prjs matcher := by
  unfold seenPairs allSeen
  rw [List.map_flatten, List.map_map]
  congr 1
  apply List.map_congr_left
  intro pr _
  simp only [Function.comp_apply, List.map_map]
  rfl

/-- C1: starting from the empty map and processing all projects, the
Resolver's map has at most one entry per sample name; a name is present
iff some matching directory was seen for it, and the retained entry's
mtime is the maximum mtime among all matching directories seen for that
name across all levels and projects.  The last conjunct is the literal
single-candidate merge rule: an existing entry is overwritten only when
the new mtime is strictly greater, and a new name is inserted
unconditionally. -/
theorem c1_resolver_merge_rule (prjs : List (String × FsPath × DirTree))
    (matcher : FsPath → Bool) (name : String) :
    (smKeys (resolveAll prjs matcher)).Nodup ∧
    (lookupSM (resolveAll prjs matcher) name = none ↔
      mtimesFor (allSeen prjs matcher) name = []) ∧
    (∀ pj d age, lookupSM (resolveAll prjs matcher) name = some (pj, d, age) →
      age ∈ mtimesFor (allSeen prjs matcher) name ∧
      ∀ a ∈ mtimesFor (allSeen prjs matcher) name, a ≤ age) ∧
    (∀ (m : SMap) (c : Cand) (project : String),
      add_sample_dirs_to_dict m [c] project =
        match lookupSM m (baseNameP c.1) with
        | some v =>
          if v.2.2 < c.2.mtime then
            updateSM m (baseNameP c.1) (project, c.1, c.2.mtime)
          else m
        | none => m ++ [(baseNameP c.1, project, c.1, c.2.mtime)]) := by
  have hres : resolveAll prjs matcher =
      mergeAll [] ((prjs.map (fun pr =>
        (matchedCands pr.2.1 pr.2.2 matcher).map (fun c => (pr.1, c)))).flatten) :=
    resolveAll_mergeAll prjs matcher []
  have hmt : mtimeAt (resolveAll prjs matcher) name =
      (mtimesFor (allSeen prjs matcher) name).foldl optMax none := by
    rw [hres, mergeAll_mtimeAt _ [] name (by simp [smKeys]), seenPairs_flatten]
    rfl
  refine ⟨?_, ?_, ?_, ?_⟩
  · rw [hres]
    exact mergeAll_nodupKeys _ [] (by simp [smKeys])
  · constructor
    · intro h
      have h2 : mtimeAt (resolveAll prjs matcher) name = none := by
        simp [mtimeAt, h]
      rw [hmt] at h2
      exact ((foldl_optMax_none_iff _ none).mp h2).2
    · intro h
      have h2 : mtimeAt (resolveAll prjs matcher) name = none := by
        rw [hmt, h]
        rfl
      simpa [mtimeAt] using h2
  · intro pj d age hl
    have h2 : mtimeAt (resolveAll prjs matcher) name = some age := by
      simp [mtimeAt, hl]
    rw [hmt] at h2
    have hspec := foldl_optMax_spec _ none age h2
    refine ⟨?_, hspec.2.1⟩
    rcases hspec.1 with hmem | hcontra
    · exact hmem
    · cases hcontra
  · intro m c project
    rfl

/-- C1 witness: a project whose tree holds `S1` twice (mtimes 5 and 9,
at levels 0 and 1); the retained entry has the maximum mtime 9. -/
def c1Tree : DirTree :=
  .node "bam_qc" 0
    [.node "S1" 5 [], .node "batch" 3 [.node "S1" 9 [], .node "log" 2 []]]

def c1Prjs : List (String × FsPath × DirTree) := [("P1", ["r", "P1", "bam_qc"], c1Tree)]

def c1Matcher : FsPath → Bool := fun p => decide (baseNameP p = "S1")

theorem c1_witness :
    lookupSM (resolveAll c1Prjs c1Matcher) "S1" =
      some ("P1", ["r", "P1", "bam_qc", "batch", "S1"], 9) ∧
    9 ∈ mtimesFor (allSeen c1Prjs c1Matcher) "S1" ∧
    (∀ a ∈ mtimesFor (allSeen c1Prjs c1Matcher) "S1", a ≤ 9) ∧
    mtimesFor (allSeen c1Prjs c1Matcher) "S1" = [5, 9] := by
  have h := ((c1_resolver_merge_rule c1Prjs c1Matcher "S1").2.2.1
    "P1" ["r", "P1", "bam_qc", "batch", "S1"] 9 (by decide))
  exact ⟨by decide, h.1, h.2, by decide⟩

/-! ## C3 and C7: current-preference and depth bound -/

theorem list_dir_prefix (p : FsPath) (t : DirTree) :
    ∀ c ∈ list_dir p t, p <+: c.1 := by
  intro c hc
  unfold list_dir filter_dirs at hc
  obtain ⟨ch, -, rfl⟩ := List.mem_map.mp (List.mem_filter.mp hc).1
  exact ⟨[ch.name], rfl⟩

theorem childCands_prefix (cs : List Cand) :
    ∀ d ∈ childCands cs, ∃ c ∈ cs, c.1 <+: d.1 := by
  intro d hd
  unfold childCands at hd
  obtain ⟨l, hl, hdl⟩ := List.mem_flatten.mp hd
  obtain ⟨c, hc, rfl⟩ := List.mem_map.mp hl
  exact ⟨c, hc, list_dir_prefix c.1 c.2 d hdl⟩

theorem level0_current_prefix (path : FsPath) (t : DirTree)
    (hcur : (list_dir path t).any (fun c => nameEndsWith c.1 "current") = true) :
    ∀ c ∈ level0 path t, (path ++ ["current"]) <+: c.1 := by
  intro c hc
  unfold level0 at hc
  rw [if_pos hcur] at hc
  unfold currentListing at hc
  cases hfind : t.children.find? (fun c => decide (c.name = "current")) with
  | none =>
    rw [hfind] at hc
    cases hc
  | some ct =>
    rw [hfind] at hc
    exact list_dir_prefix _ ct c hc

theorem level1_from_level0 (path : FsPath) (t : DirTree) (matcher : FsPath → Bool) :
    ∀ c ∈ level1 path t matcher, ∃ c0 ∈ level0 path t, c0.1 <+: c.1 := by
  intro c hc
  obtain ⟨c0, hc0, hpre⟩ := childCands_prefix _ c hc
  exact ⟨c0, (List.mem_filter.mp hc0).1, hpre⟩

theorem level2_from_level1 (path : FsPath) (t : DirTree) (matcher : FsPath → Bool) :
    ∀ c ∈ level2 path t matcher, ∃ c1 ∈ level1 path t matcher, c1.1 <+: c.1 := by
  intro c hc
  obtain ⟨c1, hc1, hpre⟩ := childCands_prefix _ c hc
  exact ⟨c1, (List.mem_filter.mp hc1).1, hpre⟩

/-- C3: when any level-0 candidate's path ends with `current`, the
candidate set is replaced (once, not recursively) with the filtered
listing of the `current` subdirectory, and every directory considered at
any of the three levels — in particular every directory considered for
matching — lies strictly inside `path/current`. -/
theorem c3_current_preference (path : FsPath) (t : DirTree)
    (matcher : FsPath → Bool)
    (hcur : (list_dir path t).any (fun c => nameEndsWith c.1 "current") = true) :
    level0 path t = currentListing path t ∧
    (∀ c ∈ level0 path t, (path ++ ["current"]) <+: c.1) ∧
    (∀ c ∈ level1 path t matcher, (path ++ ["current"]) <+: c.1) ∧
    (∀ c ∈ level2 path t matcher, (path ++ ["current"]) <+: c.1) ∧
    (∀ (m : SMap) (project : String),
      get_sample_dirs m path t matcher project =
        add_sample_dirs_to_dict
          (add_sample_dirs_to_dict
            (add_sample_dirs_to_dict m (list_sample_dirs (level0 path t) matcher) project)
            (list_sample_dirs (level1 path t matcher) matcher) project)
          (list_sample_dirs (level2 path t matcher) matcher) project) := by
  have h0 := level0_current_prefix path t hcur
  have h1 : ∀ c ∈ level1 path t matcher, (path ++ ["current"]) <+: c.1 := by
    intro c hc
    obtain ⟨c0, hc0, hpre⟩ := level1_from_level0 path t matcher c hc
    exact (h0 c0 hc0).trans hpre
  have h2 : ∀ c ∈ level2 path t matcher, (path ++ ["current"]) <+: c.1 := by
    intro c hc
    obtain ⟨c1, hc1, hpre⟩ := level2_from_level1 path t matcher c hc
    exact (h1 c1 hc1).trans hpre
  refine ⟨?_, h0, h1, h2, fun m project => get_sample_dirs_levels m path t matcher project⟩
  unfold level0
  rw [if_pos hcur]

/-- Witness for C3: a tree with a `current` directory holding `S1`, and a
stale `S1` outside `current` that is never considered. -/
theorem c3_witness :
    ((list_dir ["r", "P1", "bam_qc"]
        (.node "bam_qc" 0 [.node "current" 1 [.node "S1" 9 []], .node "old" 2 [.node "S1" 5 []]])).any
      (fun c => nameEndsWith c.1 "current")) = true ∧
    level0 ["r", "P1", "bam_qc"]
        (.node "bam_qc" 0 [.node "current" 1 [.node "S1" 9 []], .node "old" 2 [.node "S1" 5 []]]) =
      currentListing ["r", "P1", "bam_qc"]
        (.node "bam_qc" 0 [.node "current" 1 [.node "S1" 9 []], .node "old" 2 [.node "S1" 5 []]]) := by
  refine ⟨by decide, ?_⟩
  exact (c3_current_preference ["r", "P1", "bam_qc"]
    (.node "bam_qc" 0 [.node "current" 1 [.node "S1" 9 []], .node "old" 2 [.node "S1" 5 []]])
    (fun p => decide (baseNameP p = "S1")) (by decide)).1

/-- Truncate a tree below depth `k` (the nodes at depth `k` keep their
name and mtime but lose their children). -/
def truncateT : Nat → DirTree → DirTree
  | 0, t => .node t.name t.mtime []
  | k + 1, t => .node t.name t.mtime (t.children.map (truncateT k))

/-- Truncate every candidate's subtree below depth `k`. -/
def trimCands (k : Nat) (cands : List Cand) : List Cand :=
  cands.map (fun c => (c.1, truncateT k c.2))

/-- The search as a function of the level-0 candidate set alone:
matching at levels 0, 1 and 2, with level `i+1` derived from the
non-matching candidates of level `i`. -/
def searchFrom (m : SMap) (cands : List Cand) (matcher : FsPath → Bool)
    (project : String) : SMap :=
  let l1 := childCands (cands.filter (fun c => !matcher c.1))
  let l2 := childCands (l1.filter (fun c => !matcher c.1))
  add_sample_dirs_to_dict
    (add_sample_dirs_to_dict
      (add_sample_dirs_to_dict m (list_sample_dirs cands matcher) project)
      (list_sample_dirs l1 matcher) project)
    (list_sample_dirs l2 matcher) project

theorem truncateT_name (k : Nat) (t : DirTree) : (truncateT k t).name = t.name := by
  cases k <;> rfl

theorem truncateT_mtime (k : Nat) (t : DirTree) : (truncateT k t).mtime = t.mtime := by
  cases k <;> rfl

theorem list_dir_truncateT (k : Nat) (p : FsPath) (t : DirTree) :
    list_dir p (truncateT (k + 1) t) = trimCands k (list_dir p t) := by
  unfold list_dir filter_dirs trimCands
  rw [show (truncateT (k + 1) t).children = t.children.map (truncateT k) from rfl,
      List.map_map]
  have hmap : ((fun c : DirTree => (p ++ [c.name], c)) ∘ truncateT k) =
      fun c : DirTree => (p ++ [c.name], truncateT k c) := by
    funext c
    simp [Function.comp, truncateT_name]
  rw [hmap, List.filter_map, List.filter_map, List.map_map]
  rfl

theorem childCands_trimCands (k : Nat) (cs : List Cand) :
    childCands (trimCands (k + 1) cs) = trimCands k (childCands cs) := by
  unfold childCands trimCands
  rw [List.map_map, List.map_flatten, List.map_map]
  congr 1
  apply List.map_congr_left
  intro c _
  simp only [Function.comp_apply]
  have := list_dir_truncateT k c.1 c.2
  unfold trimCands at this
  exact this

theorem filter_trimCands (k : Nat) (cs : List Cand) (matcher : FsPath → Bool) :
    (trimCands k cs).filter (fun c => !matcher c.1) =
      trimCands k (cs.filter (fun c => !matcher c.1)) := by
  unfold trimCands
  rw [List.filter_map]
  rfl

theorem list_sample_dirs_trimCands (k : Nat) (cs : List Cand) (matcher : FsPath → Bool) :
    list_sample_dirs (trimCands k cs) matcher = trimCands k (list_sample_dirs cs matcher) := by
  unfold list_sample_dirs trimCands
  rw [List.filter_map]
  rfl

theorem mergeStep_trim (project : String) (m : SMap) (k : Nat) (c : Cand) :
    mergeStep project m (c.1, truncateT k c.2) = mergeStep project m c := by
  simp only [mergeStep, truncateT_mtime]

theorem add_trimCands (m : SMap) (k : Nat) (cs : List Cand) (project : String) :
    add_sample_dirs_to_dict m (trimCands k cs) project =
      add_sample_dirs_to_dict m cs project := by
  unfold add_sample_dirs_to_dict trimCands
  rw [List.foldl_map]
  induction cs generalizing m with
  | nil => rfl
  | cons c cs ih =>
    rw [List.foldl_cons, List.foldl_cons, mergeStep_trim]
    exact ih (mergeStep project m c)

/-- C7: the search merges matches from exactly the level-0, level-1 and
level-2 candidate sets, and its result is unchanged when every level-0
candidate's subtree is truncated below depth 2 — so a node deeper than
the third level under the (possibly `current`-substituted) search root is
never traversed and never matched. -/
theorem c7_depth_bound (m : SMap) (path : FsPath) (t : DirTree)
    (matcher : FsPath → Bool) (project : String) :
    get_sample_dirs m path t matcher project =
      searchFrom m (level0 path t) matcher project ∧
    searchFrom m (trimCands 2 (level0 path t)) matcher project =
      searchFrom m (level0 path t) matcher project := by
  constructor
  · rw [get_sample_dirs_levels]
    rfl
  · simp only [searchFrom]
    rw [filter_trimCands, childCands_trimCands, filter_trimCands, childCands_trimCands,
        list_sample_dirs_trimCands, list_sample_dirs_trimCands, list_sample_dirs_trimCands,
        add_trimCands, add_trimCands, add_trimCands]

/-! ## C6: idempotence of a plain real run

Helper lemmas: a run with `overwrite` and `replace_old` off only mutates
paths under `outdir`, never turns an existing path into a missing one,
and leaves every processed destination as an existing path. -/

theorem resolveFS_mono (fs : FS) (f g : Nat) (hfg : f ≤ g) :
    ∀ q r, resolveFS fs f q = some r → resolveFS fs g q = some r := by
  induction f generalizing g with
  | zero => intro q r h; cases h
  | succ f ih =>
    intro q r h
    obtain ⟨g', rfl⟩ : ∃ g', g = g' + 1 := ⟨g - 1, by omega⟩
    rw [resolveFS] at h ⊢
    cases hl : lookupFS fs q with
    | none => rw [hl] at h; cases h
    | some nn =>
      rw [hl] at h
      cases nn with
      | real mm => exact h
      | link t => exact ih g' (by omega) t r h

theorem resolveFS_insert_fresh (fs : FS) (k : FsPath) (n : Node)
    (hk : lookupFS fs k = none) :
    ∀ fuel q r, resolveFS fs fuel q = some r → resolveFS ((k, n) :: fs) fuel q = some r := by
  intro fuel
  induction fuel with
  | zero => intro q r h; cases h
  | succ fuel ih =>
    intro q r h
    rw [resolveFS] at h ⊢
    cases hl : lookupFS fs q with
    | none => rw [hl] at h; cases h
    | some nn =>
      have hkq : ¬k = q := fun he => by rw [he, hl] at hk; cases hk
      rw [show lookupFS ((k, n) :: fs) q = lookupFS fs q from by
        rw [lookupFS, if_neg hkq]]
      rw [hl] at h ⊢
      cases nn with
      | real mm => exact h
      | link t => exact ih t r h

theorem resolveFS_remove_dead (fs : FS) (d : FsPath)
    (hd : resolveFS fs symloopMax d = none) :
    ∀ fuel, fuel ≤ symloopMax → ∀ q r, resolveFS fs fuel q = some r →
      resolveFS (removeKey fs d) fuel q = some r := by
  intro fuel
  induction fuel with
  | zero => intro _ q r h; cases h
  | succ fuel ih =>
    intro hle q r h
    have hq : q ≠ d := by
      intro he
      subst he
      rw [resolveFS_mono fs (fuel + 1) symloopMax hle q r h] at hd
      cases hd
    rw [resolveFS] at h ⊢
    rw [lookupFS_removeKey_ne fs d q hq]
    cases hl : lookupFS fs q with
    | none => rw [hl] at h; cases h
    | some nn =>
      rw [hl] at h
      cases nn with
      | real mm => exact h
      | link t => exact ih (by omega) t r h

theorem pexists_insert_fresh (fs : FS) (k : FsPath) (n : Node) (q : FsPath)
    (hk : lookupFS fs k = none) (h : pexists fs q = true) :
    pexists ((k, n) :: fs) q = true := by
  unfold pexists at h ⊢
  obtain ⟨r, hr⟩ := Option.isSome_iff_exists.mp h
  rw [resolveFS_insert_fresh fs k n hk _ q r hr]
  rfl

theorem pexists_remove_dead (fs : FS) (d q : FsPath)
    (hd : pexists fs d = false) (h : pexists fs q = true) :
    pexists (removeKey fs d) q = true := by
  have hdn : resolveFS fs symloopMax d = none := by
    cases hres : resolveFS fs symloopMax d with
    | none => rfl
    | some r => unfold pexists at hd; rw [hres] at hd; cases hd
  unfold pexists at h ⊢
  obtain ⟨r, hr⟩ := Option.isSome_iff_exists.mp h
  rw [resolveFS_remove_dead fs d hdn symloopMax (le_refl _) q r hr]
  rfl

theorem pexists_two_step (fs : FS) (p t : FsPath) (mm : Nat)
    (h1 : lookupFS fs p = some (.link t)) (h2 : lookupFS fs t = some (.real mm)) :
    pexists fs p = true := by
  have hres : resolveFS fs symloopMax p = some (t, mm) := by
    show resolveFS fs (39 + 1) p = some (t, mm)
    rw [resolveFS, h1]
    show resolveFS fs (38 + 1) t = some (t, mm)
    rw [resolveFS, h2]
  unfold pexists
  rw [hres]
  rfl

/-- Membership in a glob listing means being a direct child of the
directory. -/
theorem mem_globBamBai_child (fs : FS) (dir f : FsPath)
    (h : f ∈ globBamBai fs dir) : isChildB dir f = true := by
  unfold globBamBai globSuffix at h
  rcases List.mem_append.mp h with h' | h' <;>
  · obtain ⟨e, he, rfl⟩ := List.mem_map.mp h'
    exact (Bool.and_eq_true_iff.mp (List.mem_filter.mp he).2).1

/-- A direct child of a directory that is prefix-disjoint from `outdir`
is itself not under `outdir`. -/
theorem child_not_under (outdir dir k : FsPath)
    (h1 : ¬outdir <+: dir) (h2 : ¬dir <+: outdir) (hc : isChildB dir k = true) :
    ¬outdir <+: k := by
  rw [isChildB, decide_eq_true_iff] at hc
  obtain ⟨htake, hlen⟩ := hc
  intro hpre
  have hdk : dir <+: k := by
    rw [← htake]
    exact List.take_prefix _ _
  rcases le_or_lt outdir.length dir.length with hle | hlt
  · exact h1 (List.prefix_of_prefix_length_le hpre hdk hle)
  · have hl2 : outdir.length ≤ k.length := hpre.length_le
    have heq : outdir = k := List.IsPrefix.eq_of_length hpre (by omega)
    exact h2 (heq ▸ hdk)

theorem lookupFS_filter_nonout (outdir : FsPath) (fs : FS) (q : FsPath)
    (h : ¬outdir <+: q) :
    lookupFS fs q = lookupFS (fs.filter (fun e => !decide (outdir <+: e.1))) q := by
  induction fs with
  | nil => rfl
  | cons e fs ih =>
    obtain ⟨k, n⟩ := e
    rw [List.filter_cons]
    by_cases hout : outdir <+: k
    · have hk : ¬k = q := fun he => h (he ▸ hout)
      rw [if_neg (by simp [hout]), lookupFS, if_neg hk]
      exact ih
    · rw [if_pos (by simp [hout]), lookupFS, lookupFS]
      by_cases hk : k = q
      · rw [if_pos hk, if_pos hk]
      · rw [if_neg hk, if_neg hk]
        exact ih

theorem lookup_eq_of_filter_eq (outdir : FsPath) (fs fs' : FS) (q : FsPath)
    (hf : fs'.filter (fun e => !decide (outdir <+: e.1)) =
          fs.filter (fun e => !decide (outdir <+: e.1)))
    (h : ¬outdir <+: q) : lookupFS fs' q = lookupFS fs q := by
  rw [lookupFS_filter_nonout outdir fs' q h, hf, ← lookupFS_filter_nonout outdir fs q h]

theorem removeKey_filter_under (outdir : FsPath) (fs : FS) (d : FsPath)
    (hd : outdir <+: d) :
    (removeKey fs d).filter (fun e => !decide (outdir <+: e.1)) =
      fs.filter (fun e => !decide (outdir <+: e.1)) := by
  induction fs with
  | nil => rfl
  | cons e fs ih =>
    obtain ⟨k, n⟩ := e
    by_cases hk : k = d
    · subst hk
      rw [removeKey, if_pos rfl, List.filter_cons, if_neg (by simp [hd])]
      exact ih
    · rw [removeKey, if_neg hk, List.filter_cons, List.filter_cons]
      by_cases hout : outdir <+: k
      · rw [if_neg (by simp [hout]), if_neg (by simp [hout])]
        exact ih
      · rw [if_pos (by simp [hout]), if_pos (by simp [hout]), ih]

/-- Globbing only reads entries outside `outdir` when the directory is
prefix-disjoint from it. -/
theorem globSuffix_eq_of_filter_eq (outdir : FsPath) (fs fs' : FS) (dir : FsPath)
    (suff : String)
    (hf : fs'.filter (fun e => !decide (outdir <+: e.1)) =
          fs.filter (fun e => !decide (outdir <+: e.1)))
    (h1 : ¬outdir <+: dir) (h2 : ¬dir <+: outdir) :
    globSuffix fs' dir suff = globSuffix fs dir suff := by
  have key : ∀ gs : FS,
      gs.filter (fun e => isChildB dir e.1 && nameEndsWith e.1 suff) =
      (gs.filter (fun e => !decide (outdir <+: e.1))).filter
        (fun e => isChildB dir e.1 && nameEndsWith e.1 suff) := by
    intro gs
    rw [List.filter_filter]
    apply List.filter_congr
    intro e _
    by_cases hc : isChildB dir e.1 && nameEndsWith e.1 suff
    · rw [hc]
      have := child_not_under outdir dir e.1 h1 h2 (Bool.and_eq_true_iff.mp hc).1
      simp [this]
    · simp only [Bool.not_eq_true] at hc
      rw [hc]
      simp
  unfold globSuffix
  rw [key fs', key fs, hf]

theorem globBamBai_eq_of_filter_eq (outdir : FsPath) (fs fs' : FS) (dir : FsPath)
    (hf : fs'.filter (fun e => !decide (outdir <+: e.1)) =
          fs.filter (fun e => !decide (outdir <+: e.1)))
    (h1 : ¬outdir <+: dir) (h2 : ¬dir <+: outdir) :
    globBamBai fs' dir = globBamBai fs dir := by
  unfold globBamBai
  rw [globSuffix_eq_of_filter_eq outdir fs fs' dir "bam" hf h1 h2,
      globSuffix_eq_of_filter_eq outdir fs fs' dir "bai" hf h1 h2]

theorem bumpFiles_fst (pj : String) (c : Counts) (p : String) :
    (bumpFiles pj c p).1 = (c p).1 := by
  unfold bumpFiles
  by_cases h : p = pj <;> simp [h]

/-- One file step of a real run with `overwrite` and `replace_old` off:
it succeeds, leaves the destination existing, only mutates under
`outdir`, never deletes an existing path, and never touches the
per-project `samples` counters. -/
theorem c6_file_step (cfg : Config) (project : String) (basedir outdir : FsPath)
    (fs : FS) (cnt : Counts) (fpath : FsPath)
    (hdry : cfg.dryrun = false) (hov : cfg.overwrite = false)
    (hro : cfg.replace_old = false)
    (hout : outdir <+: basedir)
    (hfr : ∃ mm, lookupFS fs fpath = some (.real mm))
    (hfo : ¬outdir <+: fpath) :
    ∃ fs' cnt', link_one_file cfg project basedir (fs, cnt) fpath = .ok (fs', cnt') ∧
      pexists fs' (basedir ++ [baseNameP fpath]) = true ∧
      (∀ q, pexists fs q = true → pexists fs' q = true) ∧
      fs'.filter (fun e => !decide (outdir <+: e.1)) =
        fs.filter (fun e => !decide (outdir <+: e.1)) ∧
      (∀ q, lookupFS fs q ≠ none → lookupFS fs' q ≠ none) ∧
      (∀ p, (cnt' p).1 = (cnt p).1) := by
  obtain ⟨mm, hmm⟩ := hfr
  have hdout : outdir <+: basedir ++ [baseNameP fpath] :=
    hout.trans (List.prefix_append basedir [baseNameP fpath])
  have hne : fpath ≠ basedir ++ [baseNameP fpath] := fun he => hfo (he ▸ hdout)
  by_cases hpe : pexists fs (basedir ++ [baseNameP fpath]) = true
  · refine ⟨fs, cnt, ?_, hpe, fun q h => h, rfl, fun q h => h, fun p => rfl⟩
    simp only [link_one_file, hpe, if_true, hro, hov, Bool.false_eq_true, if_false,
      Bool.not_false, Bool.and_self]
    rfl
  · have hpe' : pexists fs (basedir ++ [baseNameP fpath]) = false :=
      Bool.not_eq_true _ ▸ eq_false_of_ne_true hpe
    by_cases hdead : is_dead_link fs (basedir ++ [baseNameP fpath]) = true
    · -- dangling link at the destination: removed, then the link created
      have hrm : lookupFS (removeKey fs (basedir ++ [baseNameP fpath]))
          (basedir ++ [baseNameP fpath]) = none := lookupFS_removeKey_self _ _
      have heq : link_one_file cfg project basedir (fs, cnt) fpath =
          .ok ((basedir ++ [baseNameP fpath], .link fpath) ::
                removeKey fs (basedir ++ [baseNameP fpath]),
               bumpFiles project cnt) := by
        simp only [link_one_file, hpe', Bool.false_eq_true, if_false, hdead, hdry,
          Bool.not_false, Bool.and_self, if_true, symlinkFS, hrm]
      refine ⟨_, _, heq, ?_, ?_, ?_, ?_, fun p => bumpFiles_fst project cnt p⟩
      · have hl1 : lookupFS ((basedir ++ [baseNameP fpath], Node.link fpath) ::
            removeKey fs (basedir ++ [baseNameP fpath]))
            (basedir ++ [baseNameP fpath]) = some (.link fpath) := by
          rw [lookupFS, if_pos rfl]
        have hl2 : lookupFS ((basedir ++ [baseNameP fpath], Node.link fpath) ::
            removeKey fs (basedir ++ [baseNameP fpath])) fpath = some (.real mm) := by
          rw [lookupFS, if_neg (fun he => hne he.symm),
              lookupFS_removeKey_ne fs _ fpath hne]
          exact hmm
        exact pexists_two_step _ _ _ mm hl1 hl2
      · intro q hq
        have hdd : pexists fs (basedir ++ [baseNameP fpath]) = false := hpe'
        exact pexists_insert_fresh _ _ _ q hrm (pexists_remove_dead fs _ q hdd hq)
      · rw [List.filter_cons, if_neg (by simp [hdout])]
        exact removeKey_filter_under outdir fs _ hdout
      · intro q hq
        rw [lookupFS]
        by_cases hqd : basedir ++ [baseNameP fpath] = q
        · rw [if_pos hqd]
          exact fun h => by cases h
        · rw [if_neg hqd,
              lookupFS_removeKey_ne fs _ q (fun he => hqd he.symm)]
          exact hq
    · -- destination absent: the link is created directly
      have hlnone : lookupFS fs (basedir ++ [baseNameP fpath]) = none := by
        cases hl : lookupFS fs (basedir ++ [baseNameP fpath]) with
        | none => rfl
        | some n =>
          cases n with
          | real m2 =>
            rw [pexists_of_real fs _ m2 hl] at hpe'
            cases hpe'
          | link t =>
            have : is_dead_link fs (basedir ++ [baseNameP fpath]) = true := by
              unfold is_dead_link islinkFS
              rw [hl, hpe']
              rfl
            exact absurd this hdead
      have heq : link_one_file cfg project basedir (fs, cnt) fpath =
          .ok ((basedir ++ [baseNameP fpath], .link fpath) :: fs,
               bumpFiles project cnt) := by
        simp only [link_one_file, hpe', Bool.false_eq_true, if_false, hdead, hdry,
          Bool.not_false, Bool.false_and, Bool.and_self, if_true, symlinkFS, hlnone]
      refine ⟨_, _, heq, ?_, ?_, ?_, ?_, fun p => bumpFiles_fst project cnt p⟩
      · have hl1 : lookupFS ((basedir ++ [baseNameP fpath], Node.link fpath) :: fs)
            (basedir ++ [baseNameP fpath]) = some (.link fpath) := by
          rw [lookupFS, if_pos rfl]
        have hl2 : lookupFS ((basedir ++ [baseNameP fpath], Node.link fpath) :: fs)
            fpath = some (.real mm) := by
          rw [lookupFS, if_neg (fun he => hne he.symm)]
          exact hmm
        exact pexists_two_step _ _ _ mm hl1 hl2
      · intro q hq
        exact pexists_insert_fresh _ _ _ q hlnone hq
      · rw [List.filter_cons, if_neg (by simp [hdout])]
      · intro q hq
        rw [lookupFS]
        by_cases hqd : basedir ++ [baseNameP fpath] = q
        · rw [if_pos hqd]
          exact fun h => by cases h
        · rw [if_neg hqd]
          exact hq

theorem c6_files_fold (cfg : Config) (project : String) (basedir outdir : FsPath)
    (hdry : cfg.dryrun = false) (hov : cfg.overwrite = false)
    (hro : cfg.replace_old = false) (hout : outdir <+: basedir) :
    ∀ (files : List FsPath) (fs : FS) (cnt : Counts),
      (∀ f ∈ files, (∃ mm, lookupFS fs f = some (.real mm)) ∧ ¬outdir <+: f) →
      ∃ fs' cnt',
        foldE (link_one_file cfg project basedir) (fs, cnt) files = .ok (fs', cnt') ∧
        (∀ f ∈ files, pexists fs' (basedir ++ [baseNameP f]) = true) ∧
        (∀ q, pexists fs q = true → pexists fs' q = true) ∧
        fs'.filter (fun e => !decide (outdir <+: e.1)) =
          fs.filter (fun e => !decide (outdir <+: e.1)) ∧
        (∀ q, lookupFS fs q ≠ none → lookupFS fs' q ≠ none) ∧
        (∀ p, (cnt' p).1 = (cnt p).1) := by
  intro files
  induction files with
  | nil =>
    intro fs cnt _
    exact ⟨fs, cnt, rfl, by simp, fun q h => h, rfl, fun q h => h, fun p => rfl⟩
  | cons f files ih =>
    intro fs cnt hall
    obtain ⟨fs₁, cnt₁, heq₁, hdest₁, hpres₁, hfil₁, hlk₁, hcnt₁⟩ :=
      c6_file_step cfg project basedir outdir fs cnt f hdry hov hro hout
        (hall f (List.mem_cons_self f files)).1 (hall f (List.mem_cons_self f files)).2
    have htail : ∀ g ∈ files, (∃ mm, lookupFS fs₁ g = some (.real mm)) ∧ ¬outdir <+: g := by
      intro g hg
      obtain ⟨⟨mm, hmm⟩, hgo⟩ := hall g (List.mem_cons_of_mem f hg)
      exact ⟨⟨mm, by rw [lookup_eq_of_filter_eq outdir fs fs₁ g hfil₁ hgo]; exact hmm⟩, hgo⟩
    obtain ⟨fs', cnt', heq', hdest', hpres', hfil', hlk', hcnt'⟩ := ih fs₁ cnt₁ htail
    refine ⟨fs', cnt', ?_, ?_, ?_, ?_, ?_, ?_⟩
    · rw [foldE, heq₁]
      exact heq'
    · intro g hg
      rcases List.mem_cons.mp hg with rfl | hg'
    
      · exact hpres' _ hdest₁
      · exact hdest' g hg'
    · exact fun q h => hpres' q (hpres₁ q h)
    · rw [hfil', hfil₁]
    · exact fun q h => hlk' q (hlk₁ q h)
    · intro p
      rw [hcnt' p, hcnt₁ p]

def basedirOf (cfg : Config) (s : SampleInfo) : FsPath :=
  cfg.outdir ++ [patientIdOf s.name, sampleDirOf s.name, cfg.version]

theorem makedirs_filter (outdir : FsPath) (fs : FS) (p : FsPath) (hp : outdir <+: p) :
    (makedirs fs p).filter (fun e => !decide (outdir <+: e.1)) =
      fs.filter (fun e => !decide (outdir <+: e.1)) := by
  unfold makedirs
  cases hl : lookupFS fs p with
  | some n => rfl
  | none => rw [List.filter_cons, if_neg (by simp [hp])]

theorem makedirs_pexists (fs : FS) (p q : FsPath) (h : pexists fs q = true) :
    pexists (makedirs fs p) q = true := by
  unfold makedirs
  cases hl : lookupFS fs p with
  | some n => exact h
  | none => exact pexists_insert_fresh fs p (.real 0) q hl h

theorem makedirs_lookup_pres (fs : FS) (p q : FsPath) (h : lookupFS fs q ≠ none) :
    lookupFS (makedirs fs p) q ≠ none := by
  unfold makedirs
  cases hl : lookupFS fs p with
  | some n => exact h
  | none =>
    rw [lookupFS]
    by_cases hpq : p = q
    · rw [if_pos hpq]
      exact fun hh => by cases hh
    · rw [if_neg hpq]
      exact h

theorem makedirs_self (fs : FS) (p : FsPath) : lookupFS (makedirs fs p) p ≠ none := by
  unfold makedirs
  cases hl : lookupFS fs p with
  | some n =>
    rw [hl]
    exact fun hh => by cases hh
  | none =>
    rw [lookupFS, if_pos rfl]
    exact fun hh => by cases hh

/-- One sample step of a real run with `overwrite`, `replace_old` and
`latest` off: it succeeds, only mutates under `outdir`, keeps existing
paths existing, leaves the versioned directory present and every
destination existing, and bumps only the sample counter of its project
(exactly when it has files). -/
theorem c6_sample_step (cfg : Config) (s : SampleInfo) (fs : FS) (cnt : Counts)
    (hdry : cfg.dryrun = false) (hov : cfg.overwrite = false)
    (hro : cfg.replace_old = false) (hlat : cfg.latest = false)
    (hd1 : ¬cfg.outdir <+: s.dir) (hd2 : ¬s.dir <+: cfg.outdir)
    (hsrc : ∀ f ∈ globBamBai fs s.dir, ∃ mm, lookupFS fs f = some (.real mm)) :
    ∃ fs' cnt', link_one_sample cfg (fs, cnt) s = .ok (fs', cnt') ∧
      (∀ q, pexists fs q = true → pexists fs' q = true) ∧
      fs'.filter (fun e => !decide (cfg.outdir <+: e.1)) =
        fs.filter (fun e => !decide (cfg.outdir <+: e.1)) ∧
      (∀ q, lookupFS fs q ≠ none → lookupFS fs' q ≠ none) ∧
      (globBamBai fs s.dir ≠ [] →
        lookupFS fs' (basedirOf cfg s) ≠ none ∧
        ∀ f ∈ globBamBai fs s.dir,
          pexists fs' (basedirOf cfg s ++ [baseNameP f]) = true) ∧
      (∀ p, (cnt' p).1 = (cnt p).1 +
        (if !(globBamBai fs s.dir).isEmpty && decide (s.project = p) then 1 else 0)) := by
  by_cases hfe : (globBamBai fs s.dir).length = 0
  · have hnil : globBamBai fs s.dir = [] := List.length_eq_zero.mp hfe
    refine ⟨fs, cnt, ?_, fun q h => h, rfl, fun q h => h, fun hne => absurd hnil hne, ?_⟩
    · simp only [link_one_sample, hfe, if_true]
    · intro p
      rw [hnil]
      simp
  · have hmk_out : cfg.outdir <+:
        cfg.outdir ++ [patientIdOf s.name, sampleDirOf s.name, cfg.version] :=
      List.prefix_append _ _
    have hfiles : ∀ f ∈ globBamBai fs s.dir,
        (∃ mm, lookupFS (makedirs fs
          (cfg.outdir ++ [patientIdOf s.name, sampleDirOf s.name, cfg.version])) f =
            some (.real mm)) ∧ ¬cfg.outdir <+: f := by
      intro f hf
      have hfo : ¬cfg.outdir <+: f :=
        child_not_under cfg.outdir s.dir f hd1 hd2 (mem_globBamBai_child fs s.dir f hf)
      obtain ⟨mm, hmm⟩ := hsrc f hf
      refine ⟨⟨mm, ?_⟩, hfo⟩
      rw [lookup_eq_of_filter_eq cfg.outdir fs _ f
        (makedirs_filter cfg.outdir fs _ hmk_out) hfo]
      exact hmm
    obtain ⟨fs', cnt', heq, hdest, hpres, hfil, hlk, hcnt⟩ :=
      c6_files_fold cfg s.project
        (cfg.outdir ++ [patientIdOf s.name, sampleDirOf s.name, cfg.version])
        cfg.outdir hdry hov hro hmk_out (globBamBai fs s.dir)
        (makedirs fs (cfg.outdir ++ [patientIdOf s.name, sampleDirOf s.name, cfg.version]))
        (bumpSamples s.project cnt) hfiles
    refine ⟨fs', cnt', ?_, ?_, ?_, ?_, ?_, ?_⟩
    · simp only [link_one_sample, hfe, if_false, hdry, Bool.not_false, if_true, heq, hlat,
        Bool.false_eq_true]
    · intro q hq
      exact hpres q (makedirs_pexists fs _ q hq)
    · rw [hfil, makedirs_filter cfg.outdir fs _ hmk_out]
    · intro q hq
      exact hlk q (makedirs_lookup_pres fs _ q hq)
    · intro _
      exact ⟨hlk _ (makedirs_self fs _), hdest⟩
    · intro p
      rw [hcnt p]
      have hie : (globBamBai fs s.dir).isEmpty = false := by
        cases hg : globBamBai fs s.dir with
        | nil => rw [hg] at hfe; exact absurd rfl hfe
        | cons a l => rfl
      rw [hie]
      unfold bumpSamples
      by_cases hp : p = s.project
      · rw [if_pos hp, if_pos (by simp [hp])]
      · have hps : ¬s.project = p := fun hh => hp hh.symm
        rw [if_neg hp, if_neg (by simp [hps])]
        simp

/-- The number of samples of project `p` that have at least one matched
file in `fs` — what the per-project `samples` counter accumulates. -/
def countSamples (fs : FS) (samples : List SampleInfo) (p : String) : Nat :=
  (samples.filter (fun s => !(globBamBai fs s.dir).isEmpty && decide (s.project = p))).length

theorem countSamples_cons (fs : FS) (s : SampleInfo) (ss : List SampleInfo) (p : String) :
    countSamples fs (s :: ss) p =
      (if !(globBamBai fs s.dir).isEmpty && decide (s.project = p) then 1 else 0) +
        countSamples fs ss p := by
  unfold countSamples
  rw [List.filter_cons]
  by_cases hb : (!(globBamBai fs s.dir).isEmpty && decide (s.project = p)) = true
  · rw [if_pos hb, if_pos hb, List.length_cons]
    omega
  · rw [if_neg hb, if_neg hb]
    omega

theorem countSamples_congr (fs fs' : FS) (ss : List SampleInfo) (p : String)
    (h : ∀ s ∈ ss, globBamBai fs' s.dir = globBamBai fs s.dir) :
    countSamples fs' ss p = countSamples fs ss p := by
  unfold countSamples
  congr 1
  apply List.filter_congr
  intro s hs
  rw [h s hs]

theorem c6_samples_fold (cfg : Config)
    (hdry : cfg.dryrun = false) (hov : cfg.overwrite = false)
    (hro : cfg.replace_old = false) (hlat : cfg.latest = false) :
    ∀ (samples : List SampleInfo) (fs : FS) (cnt : Counts),
      (∀ s ∈ samples, ¬cfg.outdir <+: s.dir ∧ ¬s.dir <+: cfg.outdir) →
      (∀ s ∈ samples, ∀ f ∈ globBamBai fs s.dir, ∃ mm, lookupFS fs f = some (.real mm)) →
      ∃ fs' cnt', foldE (link_one_sample cfg) (fs, cnt) samples = .ok (fs', cnt') ∧
        fs'.filter (fun e => !decide (cfg.outdir <+: e.1)) =
          fs.filter (fun e => !decide (cfg.outdir <+: e.1)) ∧
        (∀ q, pexists fs q = true → pexists fs' q = true) ∧
        (∀ q, lookupFS fs q ≠ none → lookupFS fs' q ≠ none) ∧
        (∀ s ∈ samples, globBamBai fs s.dir ≠ [] →
          lookupFS fs' (basedirOf cfg s) ≠ none ∧
          ∀ f ∈ globBamBai fs s.dir,
            pexists fs' (basedirOf cfg s ++ [baseNameP f]) = true) ∧
        (∀ p, (cnt' p).1 = (cnt p).1 + countSamples fs samples p) := by
  intro samples
  induction samples with
  | nil =>
    intro fs cnt _ _
    exact ⟨fs, cnt, rfl, rfl, fun q h => h, fun q h => h, by simp,
      fun p => by simp [countSamples]⟩
  | cons s ss ih =>
    intro fs cnt hd hsrc
    obtain ⟨fs₁, cnt₁, heq₁, hpres₁, hfil₁, hlk₁, hbase₁, hcnt₁⟩ :=
      c6_sample_step cfg s fs cnt hdry hov hro hlat
        (hd s (List.mem_cons_self s ss)).1 (hd s (List.mem_cons_self s ss)).2
        (hsrc s (List.mem_cons_self s ss))
    have hglob : ∀ s' ∈ ss, globBamBai fs₁ s'.dir = globBamBai fs s'.dir := by
      intro s' hs'
      exact globBamBai_eq_of_filter_eq cfg.outdir fs fs₁ s'.dir hfil₁
        (hd s' (List.mem_cons_of_mem s hs')).1 (hd s' (List.mem_cons_of_mem s hs')).2
    have hsrc' : ∀ s' ∈ ss, ∀ f ∈ globBamBai fs₁ s'.dir,
        ∃ mm, lookupFS fs₁ f = some (.real mm) := by
      intro s' hs' f hf
      rw [hglob s' hs'] at hf
      obtain ⟨mm, hmm⟩ := hsrc s' (List.mem_cons_of_mem s hs') f hf
      have hfo : ¬cfg.outdir <+: f :=
        child_not_under cfg.outdir s'.dir f (hd s' (List.mem_cons_of_mem s hs')).1
          (hd s' (List.mem_cons_of_mem s hs')).2 (mem_globBamBai_child fs s'.dir f hf)
      exact ⟨mm, by rw [lookup_eq_of_filter_eq cfg.outdir fs fs₁ f hfil₁ hfo]; exact hmm⟩
    obtain ⟨fs', cnt', heq', hfil', hpres', hlk', hbase', hcnt'⟩ :=
      ih fs₁ cnt₁ (fun s' hs' => hd s' (List.mem_cons_of_mem s hs')) hsrc'
    refine ⟨fs', cnt', ?_, ?_, ?_, ?_, ?_, ?_⟩
    · rw [foldE, heq₁]
      exact heq'
    · rw [hfil', hfil₁]
    · exact fun q h => hpres' q (hpres₁ q h)
    · exact fun q h => hlk' q (hlk₁ q h)
    · intro s' hs' hne
      rcases List.mem_cons.mp hs' with rfl | hss
      · obtain ⟨hb, hds⟩ := hbase₁ hne
        exact ⟨hlk' _ hb, fun f hf => hpres' _ (hds f hf)⟩
      · have hne' : globBamBai fs₁ s'.dir ≠ [] := by
          rw [hglob s' hss]
          exact hne
        obtain ⟨hb, hds⟩ := hbase' s' hss hne'
        refine ⟨hb, fun f hf => ?_⟩
        apply hds
        rw [hglob s' hss]
        exact hf
    · intro p
      rw [hcnt' p, hcnt₁ p, countSamples_congr fs fs₁ ss p hglob,
          countSamples_cons, Nat.add_assoc]

theorem makedirs_noop (fs : FS) (p : FsPath) (h : lookupFS fs p ≠ none) :
    makedirs fs p = fs := by
  unfold makedirs
  cases hl : lookupFS fs p with
  | some n => rfl
  | none => exact absurd hl h

theorem c6_run2_files (cfg : Config) (project : String) (basedir : FsPath)
    (hov : cfg.overwrite = false) (hro : cfg.replace_old = false) :
    ∀ (files : List FsPath) (fs : FS) (cnt : Counts),
      (∀ f ∈ files, pexists fs (basedir ++ [baseNameP f]) = true) →
      foldE (link_one_file cfg project basedir) (fs, cnt) files = .ok (fs, cnt) := by
  intro files
  induction files with
  | nil => intro fs cnt _; rfl
  | cons f files ih =>
    intro fs cnt hall
    rw [foldE]
    have hstep : link_one_file cfg project basedir (fs, cnt) f = .ok (fs, cnt) := by
      simp only [link_one_file, hall f (List.mem_cons_self f files), if_true, hro, hov,
        Bool.false_eq_true, if_false, Bool.not_false, Bool.and_self]
      rfl
    rw [hstep]
    exact ih fs cnt (fun g hg => hall g (List.mem_cons_of_mem f hg))

theorem c6_run2_sample (cfg : Config) (s : SampleInfo) (fs : FS) (cnt : Counts)
    (hdry : cfg.dryrun = false) (hov : cfg.overwrite = false)
    (hro : cfg.replace_old = false) (hlat : cfg.latest = false)
    (hbase : globBamBai fs s.dir ≠ [] → lookupFS fs (basedirOf cfg s) ≠ none)
    (hdests : ∀ f ∈ globBamBai fs s.dir,
      pexists fs (basedirOf cfg s ++ [baseNameP f]) = true) :
    link_one_sample cfg (fs, cnt) s =
      .ok (fs, if (globBamBai fs s.dir).isEmpty then cnt else bumpSamples s.project cnt) := by
  by_cases hfe : (globBamBai fs s.dir).length = 0
  · have hnil : globBamBai fs s.dir = [] := List.length_eq_zero.mp hfe
    rw [show (globBamBai fs s.dir).isEmpty = true from by rw [hnil]; rfl, if_pos rfl]
    simp only [link_one_sample, hfe, if_true]
  · have hne : globBamBai fs s.dir ≠ [] := fun hh => hfe (by rw [hh]; rfl)
    have hie : (globBamBai fs s.dir).isEmpty = false := by
      cases hg : globBamBai fs s.dir with
      | nil => exact absurd hg hne
      | cons a l => rfl
    rw [hie, if_neg (by simp)]
    have hmk : makedirs fs
        (cfg.outdir ++ [patientIdOf s.name, sampleDirOf s.name, cfg.version]) = fs :=
      makedirs_noop fs _ (hbase hne)
    have hfold := c6_run2_files cfg s.project
      (cfg.outdir ++ [patientIdOf s.name, sampleDirOf s.name, cfg.version]) hov hro
      (globBamBai fs s.dir) fs (bumpSamples s.project cnt) hdests
    simp only [link_one_sample, hfe, if_false, hdry, Bool.not_false, if_true, hmk,
      hfold, hlat, Bool.false_eq_true]

theorem c6_run2_fold (cfg : Config)
    (hdry : cfg.dryrun = false) (hov : cfg.overwrite = false)
    (hro : cfg.replace_old = false) (hlat : cfg.latest = false) :
    ∀ (samples : List SampleInfo) (fs : FS) (cnt : Counts),
      (∀ s ∈ samples,
        (globBamBai fs s.dir ≠ [] → lookupFS fs (basedirOf cfg s) ≠ none) ∧
        ∀ f ∈ globBamBai fs s.dir,
          pexists fs (basedirOf cfg s ++ [baseNameP f]) = true) →
      ∃ cnt', foldE (link_one_sample cfg) (fs, cnt) samples = .ok (fs, cnt') ∧
        ∀ p, cnt' p = ((cnt p).1 + countSamples fs samples p, (cnt p).2) := by
  intro samples
  induction samples with
  | nil =>
    intro fs cnt _
    exact ⟨cnt, rfl, fun p => by simp [countSamples]⟩
  | cons s ss ih =>
    intro fs cnt hall
    have hstep := c6_run2_sample cfg s fs cnt hdry hov hro hlat
      (hall s (List.mem_cons_self s ss)).1 (hall s (List.mem_cons_self s ss)).2
    obtain ⟨cnt', heq', hc'⟩ := ih fs
      (if (globBamBai fs s.dir).isEmpty then cnt else bumpSamples s.project cnt)
      (fun s' hs' => hall s' (List.mem_cons_of_mem s hs'))
    refine ⟨cnt', ?_, ?_⟩
    · rw [foldE, hstep]
      exact heq'
    · intro p
      rw [hc' p, countSamples_cons]
      cases hie : (globBamBai fs s.dir).isEmpty with
      | true =>
        rw [if_pos rfl]
        simp
      | false =>
        rw [if_neg (by simp)]
        unfold bumpSamples
        by_cases hp : p = s.project
        · rw [if_pos hp, if_pos (by simp [hp])]
          show ((cnt p).1 + 1 + countSamples fs ss p, (cnt p).2) =
            ((cnt p).1 + (1 + countSamples fs ss p), (cnt p).2)
          rw [Nat.add_assoc]
        · have hps : ¬s.project = p := fun hh => hp hh.symm
          rw [if_neg hp, if_neg (by simp [hps])]
          simp

/-- C6: a real run with `overwrite` and `replace_old` off (and no
`latest` alias), over samples whose source directories are
prefix-disjoint from the output root and whose matched files are regular
files, is idempotent: rerunning on the resulting filesystem succeeds,
changes nothing, records zero file updates for every project, and
reports the same per-project sample counts. -/
theorem c6_idempotent_rerun (cfg : Config) (projects : List String)
    (samples : List SampleInfo) (fs₀ fs₁ : FS) (c₁ : Counts)
    (hdry : cfg.dryrun = false) (hov : cfg.overwrite = false)
    (hro : cfg.replace_old = false) (hlat : cfg.latest = false)
    (hd : ∀ s ∈ samples, ¬cfg.outdir <+: s.dir ∧ ¬s.dir <+: cfg.outdir)
    (hsrc : ∀ s ∈ samples, ∀ f ∈ globBamBai fs₀ s.dir,
      ∃ mm, lookupFS fs₀ f = some (.real mm))
    (hrun1 : create_links cfg projects samples fs₀ = .ok (fs₁, c₁)) :
    ∃ c₂ : Counts, create_links cfg projects samples fs₁ = .ok (fs₁, c₂) ∧
      (∀ p, (c₂ p).2 = 0) ∧
      (∀ p, (c₂ p).1 = (c₁ p).1) := by
  obtain ⟨fs', cnt', heq, hfil, hpres, hlk, hbase, hcnt⟩ :=
    c6_samples_fold cfg hdry hov hro hlat samples fs₀ (fun _ => (0, 0)) hd hsrc
  have hrun1' : foldE (link_one_sample cfg) (fs₀, fun _ => (0, 0)) samples =
      .ok (fs₁, c₁) := hrun1
  rw [heq] at hrun1'
  injection hrun1' with hpair
  have hfs : fs' = fs₁ := congrArg Prod.fst hpair
  have hc : cnt' = c₁ := congrArg Prod.snd hpair
  subst hfs
  subst hc
  have hglob2 : ∀ s ∈ samples, globBamBai fs' s.dir = globBamBai fs₀ s.dir := by
    intro s hs
    exact globBamBai_eq_of_filter_eq cfg.outdir fs₀ fs' s.dir hfil
      (hd s hs).1 (hd s hs).2
  have H2 : ∀ s ∈ samples,
      (globBamBai fs' s.dir ≠ [] → lookupFS fs' (basedirOf cfg s) ≠ none) ∧
      ∀ f ∈ globBamBai fs' s.dir,
        pexists fs' (basedirOf cfg s ++ [baseNameP f]) = true := by
    intro s hs
    constructor
    · intro hne
      rw [hglob2 s hs] at hne
      exact (hbase s hs hne).1
    · intro f hf
      rw [hglob2 s hs] at hf
      by_cases hne : globBamBai fs₀ s.dir = []
      · rw [hne] at hf
        cases hf
      · exact (hbase s hs hne).2 f hf
  obtain ⟨c₂, heq₂, hc₂⟩ := c6_run2_fold cfg hdry hov hro hlat samples fs'
    (fun _ => (0, 0)) H2
  refine ⟨c₂, heq₂, ?_, ?_⟩
  · intro p
    rw [hc₂ p]
  · intro p
    rw [hc₂ p, hcnt p]
    simp only []
    rw [countSamples_congr fs₀ fs' samples p hglob2]

/-- Inputs for the C6 witness: one sample, one source bam, empty output
tree; `c6FSrun1` is the filesystem the first run produces. -/
def c6Cfg : Config := ⟨false, false, false, false, ["out"], "V1"⟩

def c6Samples : List SampleInfo := [⟨"C-1-N1-d", "P1", ["src", "S1"]⟩]

def c6FS : FS := [(["src", "S1", "a.bam"], .real 3)]

def c6FSrun1 : FS :=
  [(["out", "C-1", "C-1-N1-d", "V1", "a.bam"], .link ["src", "S1", "a.bam"]),
   (["out", "C-1", "C-1-N1-d", "V1"], .real 0),
   (["src", "S1", "a.bam"], .real 3)]

theorem c6_witness :
    ∃ c₂ : Counts, create_links c6Cfg ["P1"] c6Samples c6FSrun1 = .ok (c6FSrun1, c₂) ∧
      (∀ p, (c₂ p).2 = 0) ∧
      (∀ p, (c₂ p).1 =
        ((bumpFiles "P1" (bumpSamples "P1" (fun _ => (0, 0)))) p).1) := by
  refine c6_idempotent_rerun c6Cfg ["P1"] c6Samples c6FS c6FSrun1
    (bumpFiles "P1" (bumpSamples "P1" (fun _ => (0, 0)))) rfl rfl rfl rfl ?_ ?_ ?_
  · intro s hs
    have hs' : s = ⟨"C-1-N1-d", "P1", ["src", "S1"]⟩ := by
      simpa [c6Samples] using hs
    subst hs'
    exact ⟨by decide, by decide⟩
  · intro s hs f hf
    have hs' : s = ⟨"C-1-N1-d", "P1", ["src", "S1"]⟩ := by
      simpa [c6Samples] using hs
    subst hs'
    have hg : globBamBai c6FS (["src", "S1"] : FsPath) = [["src", "S1", "a.bam"]] := by
      decide
    have hf2 : f ∈ globBamBai c6FS (["src", "S1"] : FsPath) := hf
    rw [hg, List.mem_singleton] at hf2
    subst hf2
    exact ⟨3, by decide⟩
  · rfl
